import Mathlib

/-!
# Vertex attributes, attribute arrays and the drawable builder

A shallow embedding of

* `include/mbgl/gfx/vertex_attribute.hpp` (`VertexAttribute`, `VertexAttributeArray`),
* `src/mbgl/gfx/drawable_builder.cpp` (`DrawableBuilder`),
* `src/mbgl/gl/drawable_gl.cpp` (`DrawableGL`: `upload`, `draw`),
* `src/mbgl/renderer/layers/render_raster_layer.cpp` (the lambda `buildRenderData`),

followed by the properties established about them.

Conventions.  A `std::vector` is a `List`; `std::size_t` positions and counts are `Nat`
(a vector cannot hold `SIZE_MAX + 1` elements, so `i + 1` does not wrap at any index
where the `resize` in `set` can succeed); `int` and `std::int32_t` values that are only
stored are `Int`; narrowing casts are written out with `%`.  A `std::unique_ptr` or
`std::shared_ptr` is an `Option` (`none` is the null pointer).
-/

namespace Mbgl

/-! ## Scalars -/

/-- A `float`, given by its IEEE-754 binary32 bit pattern (taken modulo `2^32`). -/
structure F32 where
  bits : Nat
  deriving DecidableEq, Repr

/-- Exponent field all ones and a non-zero fraction. -/
def F32.isNaN (x : F32) : Bool :=
  (x.bits % 4294967296) / 8388608 % 256 == 255 && x.bits % 8388608 != 0

/-- Both `+0.0f` and `-0.0f`. -/
def F32.isZero (x : F32) : Bool :=
  x.bits % 2147483648 == 0

/-- The C++ `==` on `float`: a NaN equals nothing, the two zeros are equal, and any other
two values are equal when their bit patterns are. -/
def F32.eq (x y : F32) : Bool :=
  !x.isNaN && !y.isNaN && ((x.isZero && y.isZero) || x.bits % 4294967296 == y.bits % 4294967296)

/-- The `==` of `std::array<float, N>`: same length and element-wise `==`. -/
def arrEq : List F32 → List F32 → Bool
  | [], [] => true
  | a :: as, b :: bs => F32.eq a b && arrEq as bs
  | _, _ => false

/-- The conversion `(int)x` of a `std::size_t`: reduction into the 32-bit signed range. -/
def toInt32 (z : Int) : Int :=
  (z + 2147483648) % 4294967296 - 2147483648

/-- The conversion of an `int` to `std::size_t` (64 bits). -/
def toSizeT (z : Int) : Nat :=
  (z % 18446744073709551616).toNat

/-- The conversion of an `int` to `uint16_t`. -/
def toUInt16 (z : Int) : Nat :=
  (z % 65536).toNat

/-- The enum `gfx::AttributeDataType` (of `gfx_types.hpp`), by its numeric code.  The
operations below store and copy it and never inspect it. -/
structure AttributeDataType where
  code : Nat
  deriving DecidableEq, Repr

/-! ## `VertexAttribute::ElementType` -/

/-- The variant
`std::variant<std::int32_t, int2, int3, int4, float, float2, float3, float4, matf3, matf4>`.
The two matrix alternatives carry their 9 and 16 floats as a list. -/
inductive ElementType where
  | int1 (v : Int)
  | int2 (v0 v1 : Int)
  | int3 (v0 v1 v2 : Int)
  | int4 (v0 v1 v2 v3 : Int)
  | float1 (v : F32)
  | float2 (v0 v1 : F32)
  | float3 (v0 v1 v2 : F32)
  | float4 (v0 v1 v2 v3 : F32)
  | matf3 (m : List F32)
  | matf4 (m : List F32)
  deriving DecidableEq, Repr

/-- A value-initialised variant holds its first alternative, the `std::int32_t` zero. -/
instance : Inhabited ElementType := ⟨ElementType.int1 0⟩

/-- Position of the active alternative (`std::variant::index`). -/
def ElementType.alternative : ElementType → Nat
  | .int1 _ => 0
  | .int2 _ _ => 1
  | .int3 _ _ _ => 2
  | .int4 _ _ _ _ => 3
  | .float1 _ => 4
  | .float2 _ _ => 5
  | .float3 _ _ _ => 6
  | .float4 _ _ _ _ => 7
  | .matf3 _ => 8
  | .matf4 _ => 9

/-- The test `std::holds_alternative<T>(e)` where `T` is the type of the value `value`. -/
def ElementType.holdsAlternativeOf (e value : ElementType) : Bool :=
  e.alternative == value.alternative

/-- The test `std::get<T>(e) == value` for a `value` of type `T`; it is used only under
`holdsAlternativeOf`, and is `false` across alternatives. -/
def ElementType.valueEq : ElementType → ElementType → Bool
  | .int1 a, .int1 b => a == b
  | .int2 a0 a1, .int2 b0 b1 => a0 == b0 && a1 == b1
  | .int3 a0 a1 a2, .int3 b0 b1 b2 => a0 == b0 && a1 == b1 && a2 == b2
  | .int4 a0 a1 a2 a3, .int4 b0 b1 b2 b3 => a0 == b0 && a1 == b1 && a2 == b2 && a3 == b3
  | .float1 a, .float1 b => F32.eq a b
  | .float2 a0 a1, .float2 b0 b1 => F32.eq a0 b0 && F32.eq a1 b1
  | .float3 a0 a1 a2, .float3 b0 b1 b2 => F32.eq a0 b0 && F32.eq a1 b1 && F32.eq a2 b2
  | .float4 a0 a1 a2 a3, .float4 b0 b1 b2 b3 =>
      F32.eq a0 b0 && F32.eq a1 b1 && F32.eq a2 b2 && F32.eq a3 b3
  | .matf3 a, .matf3 b => arrEq a b
  | .matf4 a, .matf4 b => arrEq a b
  | _, _ => false

/-- The test `std::get<T>(e) != value`. -/
def ElementType.valueNe (e value : ElementType) : Bool :=
  !e.valueEq value

/-! ## `VertexAttribute` -/

/-- The data members of `gfx::VertexAttribute`, in declaration order. -/
structure VertexAttribute where
  index : Int
  size : Int
  stride : Int
  dirty : Bool
  dataType : AttributeDataType
  items : List ElementType
  rawData : List Nat
  deriving DecidableEq, Repr

namespace VertexAttribute

/-- The constructor `VertexAttribute(index_, dataType_, size_, count_, stride_)`: `count_`
value-initialised items, `dirty` at its default `true`, an empty `rawData`. -/
def construct (index_ : Int) (dataType_ : AttributeDataType) (size_ : Int) (count_ stride_ : Nat) :
    VertexAttribute :=
  { index := index_
    size := size_
    stride := toInt32 stride_
    dirty := true
    dataType := dataType_
    items := List.replicate count_ default
    rawData := [] }

def getIndex (X : VertexAttribute) : Int := X.index

def setIndex (X : VertexAttribute) (value : Int) : VertexAttribute := { X with index := value }

def getSize (X : VertexAttribute) : Nat := toSizeT X.size

def getStride (X : VertexAttribute) : Nat := toSizeT X.stride

def getCount (X : VertexAttribute) : Nat := X.items.length

def getDataType (X : VertexAttribute) : AttributeDataType := X.dataType

/-- The accessor `get(i)`, which is `items[i]`; `none` stands for the access out of range. -/
def get (X : VertexAttribute) (i : Nat) : Option ElementType := X.items[i]?

/-- The hint `reserve(count)` changes the capacity only, which is not part of the state. -/
def reserve (X : VertexAttribute) (_count : Nat) : VertexAttribute := X

def isDirty (X : VertexAttribute) : Bool := X.dirty

def setDirty (X : VertexAttribute) : VertexAttribute :=
  { X with dirty := true, rawData := [] }

/-- The call `items.resize(n)`: truncation, or padding with value-initialised elements. -/
def resizeItems (items : List ElementType) (n : Nat) : List ElementType :=
  if n ≤ items.length then items.take n
  else items ++ List.replicate (n - items.length) default

/-- The template `set<T>(i, value)`; `value` carries its type `T` as its alternative.
The result of the C++ call is a reference to the element stored last, `items[i]`. -/
def set (X : VertexAttribute) (i : Nat) (value : ElementType) : VertexAttribute :=
  let X1 :=
    if X.items.length < i + 1 then
      setDirty { X with items := resizeItems X.items (max X.items.length (i + 1)) }
    else X
  let X2 :=
    if !X1.isDirty then
      if (X1.items.getD i default).holdsAlternativeOf value then
        if (X1.items.getD i default).valueNe value then setDirty X1 else X1
      else setDirty X1
    else X1
  { X2 with items := X2.items.set i value }

/-- The specialisation `set(i, const ElementType& value)`, the type-erased overload. -/
def setErased (X : VertexAttribute) (i : Nat) (value : ElementType) : VertexAttribute :=
  let X1 :=
    if X.items.length < i + 1 then
      { X with items := resizeItems X.items (max X.items.length (i + 1)) }
    else X
  let X2 := setDirty X1
  { X2 with items := X2.items.set i value }

def clear (X : VertexAttribute) : VertexAttribute :=
  let X1 := if !X.items.isEmpty then setDirty X else X
  { X1 with items := [] }

/-- The state `Y` is `X` after a point update with growth: `v` at position `i`, a count of
`max (old count) (i + 1)`, the old elements elsewhere, and the value-initialised element
(the `std::int32_t` zero) at the positions from the old count up to `i`. -/
def IsPointUpdate (X : VertexAttribute) (i : Nat) (v : ElementType) (Y : VertexAttribute) : Prop :=
  Y.get i = some v ∧
  Y.getCount = max X.getCount (i + 1) ∧
  (∀ j, j < X.getCount → j ≠ i → Y.get j = X.get j) ∧
  (∀ j, X.getCount ≤ j → j < i → Y.get j = some (ElementType.int1 0))

/-- The state predicate on the raw byte cache: a dirty attribute has an empty `rawData`. -/
def RawDataInvariant (X : VertexAttribute) : Prop :=
  X.isDirty = true → X.rawData = []

instance (X : VertexAttribute) : Decidable X.RawDataInvariant :=
  inferInstanceAs (Decidable (X.isDirty = true → X.rawData = []))

end VertexAttribute

/-! ## `VertexAttributeArray` -/

/-- The container `std::unordered_map<std::string, std::unique_ptr<VertexAttribute>>`, as
the list of its entries.  A map holds each key once, see `UniqueNames`; the order of the
entries stands for the unspecified iteration order. -/
abbrev AttributeMap := List (String × Option VertexAttribute)

/-- The entry of key `name` (`unordered_map::find`). -/
def AttributeMap.find (m : AttributeMap) (name : String) : Option (String × Option VertexAttribute) :=
  List.find? (fun kv => kv.1 == name) m

/-- The call `unordered_map::insert`: the map and whether the pair was inserted.  A key that
is present keeps its entry. -/
def AttributeMap.insert (m : AttributeMap) (name : String) (value : Option VertexAttribute) :
    AttributeMap × Bool :=
  match m.find name with
  | some _ => (m, false)
  | none => (m ++ [(name, value)], true)

/-- Assignment through the iterator of the entry of key `name`: `it->second = value`. -/
def AttributeMap.assign (m : AttributeMap) (name : String) (value : Option VertexAttribute) :
    AttributeMap :=
  m.map fun kv => if kv.1 == name then (kv.1, value) else kv

/-- The data member of `gfx::VertexAttributeArray`. -/
structure VertexAttributeArray where
  attrs : AttributeMap
  deriving DecidableEq, Repr

namespace VertexAttributeArray

/-- The static member `nullref`, a null pointer. -/
def nullref : Option VertexAttribute := none

/-- Every name is the key of at most one entry, as in every `std::unordered_map`. -/
def UniqueNames (A : VertexAttributeArray) : Prop :=
  (A.attrs.map Prod.fst).Nodup

instance (A : VertexAttributeArray) : Decidable A.UniqueNames :=
  inferInstanceAs (Decidable (A.attrs.map Prod.fst).Nodup)

/-- Whether `name` is a key of the map. -/
def contains (A : VertexAttributeArray) (name : String) : Bool :=
  (A.attrs.find name).isSome

def size (A : VertexAttributeArray) : Nat := A.attrs.length

/-- The protected `add(std::string name, std::unique_ptr<VertexAttribute>&& attr)`: the
array afterwards and the pointer the returned reference designates. -/
def addPtr (A : VertexAttributeArray) (name : String) (attr : Option VertexAttribute) :
    VertexAttributeArray × Option VertexAttribute :=
  let result := A.attrs.insert name none
  if result.2 then
    ({ attrs := result.1.assign name attr }, attr)
  else
    (A, nullref)

/-- The virtual `create(index, dataType, size, count)` of the base class; the stride
argument is the `std::size_t` product `size * count`. -/
def create (index : Int) (dataType : AttributeDataType) (size : Int) (count : Nat) : VertexAttribute :=
  VertexAttribute.construct index dataType size count ((toSizeT size * count) % 18446744073709551616)

/-- The virtual `copy(attr)` of the base class, the copy constructor. -/
def copy (attr : VertexAttribute) : VertexAttribute := attr

/-- The member `isDirty()`: `std::any_of` over the entries, null pointers skipped. -/
def isDirty (A : VertexAttributeArray) : Bool :=
  A.attrs.any fun kv =>
    match kv.2 with
    | some attr => attr.isDirty
    | none => false

/-- Modelled from the spec: `get(name)`, whose body is in `vertex_attribute.cpp` (not among
the sources): it "returns existing entry or invalid/null reference". -/
def get (A : VertexAttributeArray) (name : String) : Option VertexAttribute :=
  match A.attrs.find name with
  | some kv => kv.2
  | none => nullref

/-- Modelled from the spec: the public `add(name, index, dataType, size, count)`, whose body
is in `vertex_attribute.cpp` (not among the sources): it "creates and inserts iff `name`
absent; returns the new attribute, or the invalid/null reference otherwise".  Creation is
`create` and insertion is the protected overload `addPtr`, both taken from the header. -/
def add (A : VertexAttributeArray) (name : String) (index : Int) (dataType : AttributeDataType)
    (size : Int) (count : Nat) : VertexAttributeArray × Option VertexAttribute :=
  A.addPtr name (some (create index dataType size count))

/-- One invocation of a `ResolveDelegate`: the name, the default attribute and the pointer
to the override. -/
abbrev DelegateCall := String × VertexAttribute × Option VertexAttribute

/-- Modelled from the spec: `resolve(overrides, delegate)`, whose body is in
`vertex_attribute.cpp` (not among the sources): "for every attribute in `this` ... invokes
`delegate(name, defaultAttr, overrideAttrOrNull)` where the override is looked up by name in
`overrides`".  The result is the sequence of invocations made; an entry whose pointer is
null holds no attribute to pass and is skipped, as in `observeAttributes`. -/
def resolve (defaults overrides : VertexAttributeArray) : List DelegateCall :=
  defaults.attrs.filterMap fun kv =>
    match kv.2 with
    | some attr => some (kv.1, attr, overrides.get kv.1)
    | none => none

end VertexAttributeArray

/-! ## `DrawableBuilder` -/

/-- The class `mbgl::Color`: four `float` components. -/
structure Color where
  r : F32
  g : F32
  b : F32
  a : F32
  deriving DecidableEq, Repr

/-- The type `mat4`, `std::array<double, 16>`, each cell by its bit pattern. -/
structure Mat4 where
  cells : List Nat
  deriving DecidableEq, Repr

/-- The enum `gfx::DepthMaskType`. -/
inductive DepthMaskType where
  | ReadOnly
  | ReadWrite
  deriving DecidableEq, Repr

/-- The color mode of a builder; the builder code tells `PerVertex` from every other mode. -/
inductive ColorMode where
  | PerVertex
  | Other (code : Nat)
  deriving DecidableEq, Repr

/-- The class `util::SimpleIdentity`: the distinguished `Empty`, or the identity of an object. -/
inductive SimpleIdentity where
  | Empty
  | ident (uniqueID : Nat)
  deriving DecidableEq, Repr

/-- A shader program as the drawable code sees it: its GL program, the vertex attributes it
declares and the names of its uniform blocks. -/
structure ShaderProgram where
  programID : Nat
  vertexAttributes : VertexAttributeArray
  uniformBlocks : List String
  deriving DecidableEq, Repr

/-- The state of a `gfx::Drawable` that `DrawableBuilder::flush` writes; tweakers are given
by their identities. -/
structure Drawable where
  name : String
  id : SimpleIdentity
  drawPriority : Int
  depthType : DepthMaskType
  shader : Option ShaderProgram
  matrix : Mat4
  vertexAttributes : VertexAttributeArray
  tweakers : List Nat
  deriving DecidableEq, Repr

namespace Drawable

def getId (d : Drawable) : SimpleIdentity := d.id

def setDrawPriority (d : Drawable) (value : Int) : Drawable := { d with drawPriority := value }

def setDepthType (d : Drawable) (value : DepthMaskType) : Drawable := { d with depthType := value }

def setShader (d : Drawable) (value : Option ShaderProgram) : Drawable := { d with shader := value }

def setMatrix (d : Drawable) (value : Mat4) : Drawable := { d with matrix := value }

/-- The member `DrawableGL::setVertexAttributes(const gfx::VertexAttributeArray&)`. -/
def setVertexAttributes (d : Drawable) (value : VertexAttributeArray) : Drawable :=
  { d with vertexAttributes := value }

/-- The member `addTweakers(begin, end)` appends the range. -/
def addTweakers (d : Drawable) (range : List Nat) : Drawable :=
  { d with tweakers := d.tweakers ++ range }

end Drawable

/-- The geometry staged by a builder, `DrawableBuilder::Impl`: vertices (`int16_t` pairs),
`uint16_t` indexes, per-vertex colors and the current color. -/
structure DrawableBuilder.Impl where
  vertices : List (Int × Int)
  indexes : List Nat
  colors : List Color
  currentColor : Color
  deriving DecidableEq, Repr

/-- The data members of `gfx::DrawableBuilder` used in `drawable_builder.cpp`, with the
`vertexAttributes` of `gl::DrawableGLBuilder`. -/
structure DrawableBuilder where
  name : String
  drawableName : String
  impl : DrawableBuilder.Impl
  colorMode : ColorMode
  drawPriority : Int
  depthType : DepthMaskType
  shader : Option ShaderProgram
  matrix : Mat4
  vertexAttributes : VertexAttributeArray
  tweakers : List Nat
  currentDrawable : Option Drawable
  drawables : List Drawable
  deriving DecidableEq, Repr

/-- The two pure virtual members of `DrawableBuilder` that `flush` calls and the backend
builder defines (outside the sources at hand): `createDrawable(name)` and `init()`.
The pointer `createDrawable` returns is not null: `flush` dereferences it unchecked. -/
structure Backend where
  createDrawable : String → Drawable
  init : DrawableBuilder → DrawableBuilder

namespace DrawableBuilder

def getColor (b : DrawableBuilder) : Color := b.impl.currentColor

def setColor (b : DrawableBuilder) (value : Color) : DrawableBuilder :=
  { b with impl := { b.impl with currentColor := value } }

/-- The member `getVertexAttributes()` as `gl::DrawableGLBuilder` overrides it. -/
def getVertexAttributes (b : DrawableBuilder) : VertexAttributeArray := b.vertexAttributes

/-- The member `getCurrentDrawable(createIfNone)`: the builder afterwards and the pointer
returned. -/
def getCurrentDrawable (be : Backend) (b : DrawableBuilder) (createIfNone : Bool) :
    DrawableBuilder × Option Drawable :=
  if b.currentDrawable.isNone && createIfNone then
    let d := be.createDrawable (if b.drawableName.isEmpty then b.name else b.drawableName)
    ({ b with currentDrawable := some d }, some d)
  else
    (b, b.currentDrawable)

/-- The block of `flush` between `getCurrentDrawable` and `init`: the six setters applied to
`currentDrawable`. -/
def configure (b : DrawableBuilder) (d : Drawable) : Drawable :=
  (((((d.setDrawPriority b.drawPriority).setDepthType b.depthType).setShader b.shader).setMatrix
    b.matrix).setVertexAttributes b.getVertexAttributes).addTweakers b.tweakers

def flush (be : Backend) (b : DrawableBuilder) : DrawableBuilder :=
  let b1 :=
    if !b.impl.vertices.isEmpty then
      let b0 := (getCurrentDrawable be b true).1
      be.init { b0 with currentDrawable := b0.currentDrawable.map (configure b0) }
    else b
  match b1.currentDrawable with
  | some d => { b1 with drawables := b1.drawables ++ [d], currentDrawable := none }
  | none => b1

def getDrawableId (b : DrawableBuilder) : SimpleIdentity :=
  match b.currentDrawable with
  | some d => d.getId
  | none => SimpleIdentity.Empty

def getDrawPriority (b : DrawableBuilder) : Int := b.drawPriority

def setDrawPriority (b : DrawableBuilder) (value : Int) : DrawableBuilder :=
  { b with
    drawPriority := value
    currentDrawable := b.currentDrawable.map fun d => d.setDrawPriority value }

def resetDrawPriority (b : DrawableBuilder) (value : Int) : DrawableBuilder :=
  let b1 := b.setDrawPriority value
  { b1 with drawables := b1.drawables.map fun d => d.setDrawPriority value }

/-- The member `addTriangle`; `n` is `(uint16_t)impl->vertices.elements()`, and the three
`int` arguments of `indexes.emplace_back` are stored as `uint16_t`. -/
def addTriangle (b : DrawableBuilder) (x0 y0 x1 y1 x2 y2 : Int) : DrawableBuilder :=
  let n : Int := (b.impl.vertices.length % 65536 : Nat)
  let vertices := b.impl.vertices ++ [(x0, y0)] ++ [(x1, y1)] ++ [(x2, y2)]
  let indexes := b.impl.indexes ++ [toUInt16 n, toUInt16 (n + 1), toUInt16 (n + 2)]
  let colors :=
    if b.colorMode = ColorMode.PerVertex then
      b.impl.colors ++ List.replicate 3 b.impl.currentColor
    else b.impl.colors
  { b with impl := { b.impl with vertices := vertices, indexes := indexes, colors := colors } }

/-- The member `appendTriangle`; `n - 2` and `n - 1` are computed in `int` and stored as
`uint16_t`. -/
def appendTriangle (b : DrawableBuilder) (x0 y0 : Int) : DrawableBuilder :=
  let n : Int := (b.impl.vertices.length % 65536 : Nat)
  let vertices := b.impl.vertices ++ [(x0, y0)]
  let indexes := b.impl.indexes ++ [toUInt16 (n - 2), toUInt16 (n - 1), toUInt16 n]
  let colors :=
    if b.colorMode = ColorMode.PerVertex then
      b.impl.colors ++ [b.impl.currentColor]
    else b.impl.colors
  { b with impl := { b.impl with vertices := vertices, indexes := indexes, colors := colors } }

def addQuad (b : DrawableBuilder) (x0 y0 x1 y1 : Int) : DrawableBuilder :=
  (b.addTriangle x0 y0 x1 y0 x0 y1).appendTriangle x1 y1

end DrawableBuilder

/-! ## `DrawableGL` -/

/-- A segment, `SegmentBase` of `programs/segment.hpp`: a range of vertices and a range of
indexes, and a sort key (a `float`).  The constructor of two arguments, `mk2`, starts the
segment with both lengths zero. -/
structure SegmentBase where
  vertexOffset : Nat
  indexOffset : Nat
  vertexLength : Nat
  indexLength : Nat
  sortKey : F32
  deriving DecidableEq, Repr

def SegmentBase.mk2 (vertexOffset indexOffset : Nat) : SegmentBase :=
  { vertexOffset := vertexOffset, indexOffset := indexOffset, vertexLength := 0, indexLength := 0,
    sortKey := ⟨0⟩ }

/-- A GL buffer object, by its name. -/
structure BufferResource where
  handle : Nat
  deriving DecidableEq, Repr

/-- The pair `gfx::IndexBuffer{elements, resource}`. -/
structure IndexBuffer where
  elements : Nat
  resource : Option BufferResource
  deriving DecidableEq, Repr

/-- One `gfx::AttributeBinding`, as far as `upload` touches it: its `vertexOffset`
(`uint32_t`) and the rest of the binding. -/
structure AttributeBinding where
  vertexOffset : Nat
  payload : Nat
  deriving DecidableEq, Repr

/-- The type `gfx::AttributeBindingArray`, a vector of `std::optional<AttributeBinding>`. -/
abbrev AttributeBindingArray := List (Option AttributeBinding)

/-- What a `gl::VertexArray` owns once created: the GL name of the vertex array and the
index buffer and bindings given to `bind`. -/
structure VertexArrayState where
  id : Nat
  indexBuffer : Option IndexBuffer
  bindings : AttributeBindingArray
  deriving DecidableEq, Repr

/-- The class `gl::VertexArray`: a pointer to its state, null until created. -/
structure VertexArray where
  state : Option VertexArrayState
  deriving DecidableEq, Repr

def VertexArray.isValid (v : VertexArray) : Bool := v.state.isSome

/-- The member `getID()`; the callers test `isValid()` first. -/
def VertexArray.getID (v : VertexArray) : Nat :=
  match v.state with
  | some st => st.id
  | none => 0

/-- The member `bind(context, indexBuffer, bindings)`. -/
def VertexArray.bind (v : VertexArray) (indexBuffer : IndexBuffer) (bindings : AttributeBindingArray) :
    VertexArray :=
  { state := v.state.map fun st => { st with indexBuffer := some indexBuffer, bindings := bindings } }

/-- The class `gfx::DrawMode`, by a code of the primitive. -/
structure DrawMode where
  code : Nat
  deriving DecidableEq, Repr

/-- The class `DrawSegmentGL`: the draw mode, the segment and the cached vertex array. -/
structure DrawSegmentGL where
  mode : DrawMode
  segment : SegmentBase
  vertexArray : VertexArray
  deriving DecidableEq, Repr

namespace DrawSegmentGL

def getMode (seg : DrawSegmentGL) : DrawMode := seg.mode

def getSegment (seg : DrawSegmentGL) : SegmentBase := seg.segment

def getVertexArray (seg : DrawSegmentGL) : VertexArray := seg.vertexArray

def setVertexArray (seg : DrawSegmentGL) (value : VertexArray) : DrawSegmentGL :=
  { seg with vertexArray := value }

end DrawSegmentGL

/-- A call that reaches the graphics API, in the order made. -/
inductive GLEvent where
  | createIndexBufferResource (bytes : Nat)
  | buildAttributeBindings (vertexCount : Nat)
  | createVertexArray (id : Nat)
  | bindUniformBuffer (block : String) (buffer : Nat)
  | unbindUniformBuffer (block : String)
  | bindTexture (texture : Nat) (location : Int) (unit : Int)
  | unbindTexture (texture : Nat)
  | draw (mode : DrawMode) (indexOffset indexLength : Nat) (boundVertexArray : Nat)
  deriving DecidableEq, Repr

/-- The state of `gl::Context` that `DrawableGL` reads and writes: the current values of
`program` and `bindVertexArray`, the four modes (by codes), the calls made so far, and the
name the next vertex array will get. -/
structure Context where
  program : Nat
  bindVertexArray : Nat
  depthMode : Nat
  stencilMode : Nat
  colorMode : Nat
  cullFaceMode : Nat
  events : List GLEvent
  nextVertexArray : Nat
  deriving DecidableEq, Repr

/-- The constant `value::Program::Default`, the GL name of no program. -/
def programDefault : Nat := 0

/-- The code of `gfx::StencilMode::disabled()`. -/
def stencilModeDisabled : Nat := 0

/-- The code of `gfx::CullFaceMode::disabled()`. -/
def cullFaceModeDisabled : Nat := 0

namespace Context

def setDepthMode (c : Context) (value : Nat) : Context := { c with depthMode := value }

def setStencilMode (c : Context) (value : Nat) : Context := { c with stencilMode := value }

def setColorMode (c : Context) (value : Nat) : Context := { c with colorMode := value }

def setCullFaceMode (c : Context) (value : Nat) : Context := { c with cullFaceMode := value }

/-- The call `draw(mode, indexOffset, indexLength)`, the indexed draw; the event records the
vertex array bound at the call. -/
def draw (c : Context) (mode : DrawMode) (indexOffset indexLength : Nat) : Context :=
  { c with events := c.events ++ [GLEvent.draw mode indexOffset indexLength c.bindVertexArray] }

/-- Modelled from the spec: `gl::Context::createVertexArray`, defined outside the sources at
hand, the "vertex-array (layout) creation" of the graphics context.  The vertex array made
is valid, which `upload` asserts of it; it gets the next free name. -/
def createVertexArray (c : Context) : Context × VertexArray :=
  ({ c with
      events := c.events ++ [GLEvent.createVertexArray c.nextVertexArray]
      nextVertexArray := c.nextVertexArray + 1 },
   { state := some { id := c.nextVertexArray, indexBuffer := none, bindings := [] } })

end Context

/-- What `buildAttributeBindings` hands back: the bindings, the vertex buffer put in its
out-parameter, and the override array afterwards (`dirty` and `rawData` of an attribute are
`mutable`, so the callee can change them through the `const` reference). -/
structure BindingsResult where
  bindings : AttributeBindingArray
  vertexBuffer : Option BufferResource
  overrides : VertexAttributeArray
  deriving DecidableEq, Repr

/-- The two members of `gfx::UploadPass` that `upload` calls; both are defined outside the
sources at hand.  `createIndexBufferResource(data, size, usage)` and
`buildAttributeBindings(vertexCount, defaults, overrides, usage, vertexBuffer)`; the usage
is always `StaticDraw`. -/
structure UploadPass where
  createIndexBufferResource : List Nat → Nat → BufferResource
  buildAttributeBindings : Nat → VertexAttributeArray → VertexAttributeArray → BindingsResult

/-- Modelled from the spec: `VertexAttributeArray::getMaxCount`, whose body is in
`vertex_attribute.cpp` (not among the sources): it "equals the maximum `getCount()` over all
contained attributes; on an empty array it is 0". -/
def VertexAttributeArray.getMaxCount (A : VertexAttributeArray) : Nat :=
  A.attrs.foldl
    (fun acc kv =>
      match kv.2 with
      | some attr => max acc attr.getCount
      | none => acc)
    0

/-- The members of `PaintParameters` that `draw` calls, results by their codes. -/
structure PaintParameters where
  depthModeForSublayer : Int → DepthMaskType → Nat
  colorModeForRenderPass : Nat

/-- A `gl::DrawableGL`: the state of the base class, the textures (texture and sampler
location), the sub-layer index, and the members of `DrawableGL::Impl`.  The vertex
attributes of `Impl` are the field `vertexAttributes` of the base state. -/
structure DrawableGL extends Drawable where
  subLayerIndex : Int
  textures : List (Nat × Int)
  indexes : List Nat
  segments : List DrawSegmentGL
  uniformBuffers : List (String × Nat)
  indexBuffer : IndexBuffer
  attributeBuffer : Option BufferResource
  deriving DecidableEq, Repr

namespace DrawableGL

def getSubLayerIndex (d : DrawableGL) : Int := d.subLayerIndex

def getDepthType (d : DrawableGL) : DepthMaskType := d.depthType

def setIndexData (d : DrawableGL) (indexes : List Nat) (segments : List DrawSegmentGL) : DrawableGL :=
  { d with indexes := indexes, segments := segments }

def getVertexAttributes (d : DrawableGL) : VertexAttributeArray := d.vertexAttributes

/-- The lookup `getUniformBuffers().get(name)`; `none` is the null pointer. -/
def getUniformBuffer (d : DrawableGL) (name : String) : Option Nat :=
  (d.uniformBuffers.find? fun kv => kv.1 == name).map Prod.snd

def bindUniformBuffers (d : DrawableGL) (c : Context) : Context :=
  match d.shader with
  | some shaderGL =>
    shaderGL.uniformBlocks.foldl
      (fun c block =>
        match d.getUniformBuffer block with
        | none => c
        | some uniformBuffer =>
          { c with events := c.events ++ [GLEvent.bindUniformBuffer block uniformBuffer] })
      c
  | none => c

def unbindUniformBuffers (d : DrawableGL) (c : Context) : Context :=
  match d.shader with
  | some shaderGL =>
    shaderGL.uniformBlocks.foldl
      (fun c block => { c with events := c.events ++ [GLEvent.unbindUniformBuffer block] })
      c
  | none => c

/-- The member `bindTextures()`: texture `k` of the list goes to unit `k`. -/
def bindTextures (d : DrawableGL) (c : Context) : Context :=
  (d.textures.foldl
    (fun (cu : Context × Int) tex =>
      ({ cu.1 with events := cu.1.events ++ [GLEvent.bindTexture tex.1 tex.2 cu.2] }, cu.2 + 1))
    (c, 0)).1

def unbindTextures (d : DrawableGL) (c : Context) : Context :=
  d.textures.foldl
    (fun c tex => { c with events := c.events ++ [GLEvent.unbindTexture tex.1] })
    c

/-- The body of the loop over the segments in `draw`. -/
def drawSegment (glContext : Context) (glSeg : DrawSegmentGL) : Context :=
  let mlSeg := glSeg.getSegment
  let glContext1 :=
    if glSeg.getVertexArray.isValid then
      { glContext with bindVertexArray := glSeg.getVertexArray.getID }
    else glContext
  glContext1.draw glSeg.getMode mlSeg.indexOffset mlSeg.indexLength

/-- The member `draw(parameters)`, as the change it makes to the context.  Both branches of
the test of `tileID` set the stencil mode to `disabled()`. -/
def draw (d : DrawableGL) (parameters : PaintParameters) (context : Context) : Context :=
  let c1 :=
    match d.shader with
    | some shaderGL =>
      if shaderGL.programID != context.program then
        { context with program := shaderGL.programID }
      else context
    | none => { context with program := programDefault }
  let c2 := c1.setDepthMode (parameters.depthModeForSublayer d.getSubLayerIndex d.getDepthType)
  let c3 := c2.setStencilMode stencilModeDisabled
  let c4 := c3.setColorMode parameters.colorModeForRenderPass
  let c5 := c4.setCullFaceMode cullFaceModeDisabled
  let c6 := d.bindUniformBuffers c5
  let c7 := d.bindTextures c6
  let saveVertexArray := c7.bindVertexArray
  let c8 := d.segments.foldl drawSegment c7
  let c9 := { c8 with bindVertexArray := saveVertexArray }
  d.unbindUniformBuffers (d.unbindTextures c9)

/-- The body of the loop over the segments in `upload`: the bindings get the vertex offset
of the segment (as `uint32_t`), a vertex array is created, bound to the index buffer and the
bindings, and cached on the segment. -/
def uploadSegment (indexBuffer : IndexBuffer)
    (st : Context × AttributeBindingArray × List DrawSegmentGL) (glSeg : DrawSegmentGL) :
    Context × AttributeBindingArray × List DrawSegmentGL :=
  let mlSeg := glSeg.getSegment
  let bindings :=
    st.2.1.map fun binding =>
      binding.map fun bd => { bd with vertexOffset := mlSeg.vertexOffset % 4294967296 }
  let created := st.1.createVertexArray
  let vertexArray := created.2.bind indexBuffer bindings
  (created.1, bindings, st.2.2 ++ [glSeg.setVertexArray vertexArray])

/-- The member `upload(context, uploadPass)`: the context and the drawable afterwards. -/
def upload (uploadPass : UploadPass) (context : Context) (d : DrawableGL) : Context × DrawableGL :=
  match d.shader with
  | none => (context, d)
  | some shader =>
    let build :=
      d.vertexAttributes.isDirty ||
        d.segments.any fun seg => !seg.getVertexArray.isValid
    if build then
      let indexBytes := d.indexes.length * 2
      let indexBufferResource := uploadPass.createIndexBufferResource d.indexes indexBytes
      let c1 := { context with events := context.events ++ [GLEvent.createIndexBufferResource indexBytes] }
      let indexBuffer : IndexBuffer := { elements := d.indexes.length, resource := some indexBufferResource }
      let defaults := shader.vertexAttributes
      let overrides := d.vertexAttributes
      let vertexCount := overrides.getMaxCount
      let built := uploadPass.buildAttributeBindings vertexCount defaults overrides
      let c2 := { c1 with events := c1.events ++ [GLEvent.buildAttributeBindings vertexCount] }
      let looped := d.segments.foldl (uploadSegment indexBuffer) (c2, built.bindings, [])
      (looped.1,
       { d with
          vertexAttributes := built.overrides
          attributeBuffer := built.vertexBuffer
          indexBuffer := indexBuffer
          segments := looped.2.2 })
    else (context, d)

end DrawableGL

/-- The indexed draw call that an event is, when it is one: the primitive mode, the index
offset and the index count. -/
def GLEvent.drawCall : GLEvent → Option (DrawMode × Nat × Nat)
  | .draw mode indexOffset indexLength _ => some (mode, indexOffset, indexLength)
  | _ => none

/-- The indexed draw calls among the calls made, in order. -/
def drawCalls (events : List GLEvent) : List (DrawMode × Nat × Nat) :=
  events.filterMap GLEvent.drawCall

/-- The array with the `dirty` flag of every attribute lowered. -/
def VertexAttributeArray.cleanAll (A : VertexAttributeArray) : VertexAttributeArray :=
  { attrs := A.attrs.map fun kv => (kv.1, kv.2.map fun attr => { attr with dirty := false }) }

/-- An upload pass for the examples: one binding per attribute the shader declares, a vertex
buffer for the given vertex count, and the dirty flag of every attribute lowered. -/
def clearingUploadPass : UploadPass where
  createIndexBufferResource _ size := ⟨size⟩
  buildAttributeBindings vertexCount defaults overrides :=
    { bindings := (defaults.resolve overrides).map fun _ => some ⟨0, 0⟩
      vertexBuffer := some ⟨vertexCount⟩
      overrides := overrides.cleanAll }

/-- The array `overrides` once the overrides that `defaults.resolve(overrides, ...)` passes
to its delegate have been uploaded: an attribute whose name `defaults` declares has its
dirty flag lowered, every other entry is as it was. -/
def VertexAttributeArray.cleanResolved (overrides defaults : VertexAttributeArray) :
    VertexAttributeArray :=
  { attrs := overrides.attrs.map fun kv =>
      if (defaults.get kv.1).isSome then
        (kv.1, kv.2.map fun attr => { attr with dirty := false })
      else kv }

/-- Modelled from the spec: the members of the upload pass, defined outside the sources at
hand.  `buildAttributeBindings` does step (b) of the rebuild: "resolve the attribute array
against the shader's declared default attributes via `resolve`, producing one GPU attribute
binding per shader-declared attribute, sourced from the override when present else from the
shader default".  The override of an attribute that is resolved is uploaded, which lowers
its dirty flag ("once cleared (post-upload)"); "attributes present only in `overrides` but
absent from defaults are not visited", and stay as they are. -/
def resolvingUploadPass : UploadPass where
  createIndexBufferResource _ size := ⟨size⟩
  buildAttributeBindings vertexCount defaults overrides :=
    { bindings := (defaults.resolve overrides).map fun _ => some ⟨0, 0⟩
      vertexBuffer := some ⟨vertexCount⟩
      overrides := overrides.cleanResolved defaults }

/-- A shader program that declares the attribute `a_pos` and one uniform block. -/
def sampleShader : ShaderProgram :=
  { programID := 7
    vertexAttributes := ⟨[("a_pos", some (VertexAttributeArray.create 0 ⟨9⟩ 2 1))]⟩
    uniformBlocks := ["DrawableUBO"] }

/-- A drawable as a builder leaves it: the six indexes of a quad, two segments that have no
vertex array yet, one texture, one uniform buffer, and a freshly added attribute. -/
def sampleDrawableGL (shader : Option ShaderProgram) : DrawableGL :=
  { name := "raster"
    id := SimpleIdentity.ident 1
    drawPriority := 0
    depthType := DepthMaskType.ReadOnly
    shader := shader
    matrix := ⟨[]⟩
    vertexAttributes := (VertexAttributeArray.add ⟨[]⟩ "a_pos" (-1) ⟨9⟩ 2 4).1
    tweakers := []
    subLayerIndex := 0
    textures := [(11, 0)]
    indexes := [0, 1, 2, 1, 2, 3]
    segments :=
      [{ mode := ⟨4⟩, segment := ⟨0, 0, 3, 3, ⟨0⟩⟩, vertexArray := ⟨none⟩ },
       { mode := ⟨4⟩, segment := ⟨0, 3, 4, 3, ⟨0⟩⟩, vertexArray := ⟨none⟩ }]
    uniformBuffers := [("DrawableUBO", 21)]
    indexBuffer := { elements := 0, resource := none }
    attributeBuffer := none }

/-- A context in which nothing is bound and no call was made. -/
def sampleContext : Context :=
  { program := 0, bindVertexArray := 0, depthMode := 0, stencilMode := 0, colorMode := 0,
    cullFaceMode := 0, events := [], nextVertexArray := 1 }

def sampleParameters : PaintParameters :=
  { depthModeForSublayer := fun _ _ => 1, colorModeForRenderPass := 1 }

/-- The sample drawable with one more attribute, `a_extra`, which the sample shader does
not declare. -/
def undeclaredDrawableGL : DrawableGL :=
  { sampleDrawableGL (some sampleShader) with
    vertexAttributes :=
      (VertexAttributeArray.add (VertexAttributeArray.add ⟨[]⟩ "a_pos" (-1) ⟨9⟩ 2 4).1
        "a_extra" (-1) ⟨9⟩ 1 1).1 }

/-- The vertex array bound at an indexed draw call, when the event is one. -/
def GLEvent.boundAtDraw : GLEvent → Option Nat
  | .draw _ _ _ boundVertexArray => some boundVertexArray
  | _ => none

/-- The vertex arrays bound at the indexed draw calls among the calls made, in order. -/
def boundAtDraws (events : List GLEvent) : List Nat :=
  events.filterMap GLEvent.boundAtDraw

/-- The vertex array bound at the draw call of each segment when a binding is carried from
one segment to the next: a segment with a valid vertex array binds its own, a segment
without one draws with what is bound already.  `bound` is the vertex array bound before the
first segment. -/
def carriedBindings (bound : Nat) : List DrawSegmentGL → List Nat
  | [] => []
  | seg :: rest =>
    (if seg.getVertexArray.isValid then seg.getVertexArray.getID else bound) ::
      carriedBindings (if seg.getVertexArray.isValid then seg.getVertexArray.getID else bound) rest

/-- The segments all have a valid cached vertex array, or none of them has one.  These are
the two forms of the segment list of a drawable: `setIndexData` installs a whole list of
segments, which come without a vertex array, and the rebuild in `upload` gives every
segment a valid one. -/
def UniformLayouts (segs : List DrawSegmentGL) : Prop :=
  (∀ seg ∈ segs, seg.getVertexArray.isValid = true) ∨
  (∀ seg ∈ segs, seg.getVertexArray.isValid = false)

instance (segs : List DrawSegmentGL) : Decidable (UniformLayouts segs) :=
  inferInstanceAs (Decidable
    ((∀ seg ∈ segs, seg.getVertexArray.isValid = true) ∨
     (∀ seg ∈ segs, seg.getVertexArray.isValid = false)))

/-! ## Sequences of builder calls -/

/-- A call of one of the members `setColor`, `addTriangle`, `appendTriangle`, `addQuad`. -/
inductive GeometryCall where
  | setColor (value : Color)
  | addTriangle (x0 y0 x1 y1 x2 y2 : Int)
  | appendTriangle (x0 y0 : Int)
  | addQuad (x0 y0 x1 y1 : Int)
  deriving DecidableEq, Repr

/-- The builder after one call. -/
def DrawableBuilder.call (b : DrawableBuilder) : GeometryCall → DrawableBuilder
  | .setColor value => b.setColor value
  | .addTriangle x0 y0 x1 y1 x2 y2 => b.addTriangle x0 y0 x1 y1 x2 y2
  | .appendTriangle x0 y0 => b.appendTriangle x0 y0
  | .addQuad x0 y0 x1 y1 => b.addQuad x0 y0 x1 y1

/-- The builder after a sequence of calls, made in order. -/
def DrawableBuilder.callAll (b : DrawableBuilder) (calls : List GeometryCall) : DrawableBuilder :=
  calls.foldl DrawableBuilder.call b

/-- The vertices a call adds, in the order added. -/
def GeometryCall.addedVertices : GeometryCall → List (Int × Int)
  | .setColor _ => []
  | .addTriangle x0 y0 x1 y1 x2 y2 => [(x0, y0), (x1, y1), (x2, y2)]
  | .appendTriangle x0 y0 => [(x0, y0)]
  | .addQuad x0 y0 x1 y1 => [(x0, y0), (x1, y0), (x0, y1), (x1, y1)]

/-- The specification of per-vertex color: every vertex added by a sequence of calls, paired
with the color that was current when it was added.  `current` is the color current before
the first call. -/
def coloredVertices (current : Color) : List GeometryCall → List ((Int × Int) × Color)
  | [] => []
  | .setColor value :: calls => coloredVertices value calls
  | c :: calls => c.addedVertices.map (fun v => (v, current)) ++ coloredVertices current calls

/-- The number of triangles a call adds. -/
def GeometryCall.triangles : GeometryCall → Nat
  | .setColor _ => 0
  | .addTriangle _ _ _ _ _ _ => 1
  | .appendTriangle _ _ => 1
  | .addQuad _ _ _ _ => 2

/-- The precondition of a call on a builder that holds `n` vertices: `appendTriangle` needs
two vertices before it. -/
def GeometryCall.allowedAt (n : Nat) : GeometryCall → Bool
  | .appendTriangle _ _ => decide (2 ≤ n)
  | _ => true

/-- Every call of a sequence, made on a builder that holds `n` vertices, meets its
precondition. -/
def callsAllowedAt (n : Nat) : List GeometryCall → Bool
  | [] => true
  | c :: calls => c.allowedAt n && callsAllowedAt (n + c.addedVertices.length) calls

/-! ## The raster tile geometry of `RenderRasterLayer::update` -/

/-- The conversion of an integer to `int16_t`. -/
def toInt16 (z : Int) : Int :=
  (z + 32768) % 65536 - 32768

/-- A `CanonicalTileID`: `z` is a `uint8_t`, `x` and `y` are `uint32_t`. -/
structure CanonicalTileID where
  z : Nat
  x : Nat
  y : Nat
  deriving DecidableEq, Repr

/-- The four vectors that `buildRenderData` fills through its reference parameters. -/
structure RenderData where
  vertices : List (Int × Int)
  attributes : List (Int × Int)
  indices : List Nat
  segments : List SegmentBase
  deriving DecidableEq, Repr

/-- The body of the loop of `buildRenderData` for the tile `id` of the mask.  `extent` is the
constant `util::EXTENT`, and the local constant `vertexLength` is 4.  The segment worked on,
`segments.back()`, is a fresh one when there is no segment or the last one cannot take four
more vertices. -/
def buildTile (extent : Int) (out : RenderData) (id : CanonicalTileID) : RenderData :=
  let vertexLength : Nat := 4
  let vertexExtent : Int := extent / 2 ^ id.z
  let tlx := toInt16 (((id.x : Int) * vertexExtent) % 4294967296)
  let tly := toInt16 (((id.y : Int) * vertexExtent) % 4294967296)
  let brx := toInt16 (tlx + vertexExtent)
  let bry := toInt16 (tly + vertexExtent)
  let started : List SegmentBase × SegmentBase :=
    match out.segments.getLast? with
    | none => (out.segments, SegmentBase.mk2 out.vertices.length out.indices.length)
    | some back =>
      if back.vertexLength + vertexLength > 65535 then
        (out.segments, SegmentBase.mk2 out.vertices.length out.indices.length)
      else (out.segments.dropLast, back)
  let segment := started.2
  let quad := [(tlx, tly), (brx, tly), (tlx, bry), (brx, bry)]
  let offset : Nat := segment.vertexLength % 65536
  { vertices := out.vertices ++ quad
    attributes := out.attributes ++ quad
    indices := out.indices ++
      [offset, (offset + 1) % 65536, (offset + 2) % 65536, (offset + 1) % 65536,
        (offset + 2) % 65536, (offset + 3) % 65536]
    segments := started.1 ++
      [{ segment with
          vertexLength := segment.vertexLength + vertexLength
          indexLength := segment.indexLength + 6 }] }

/-- The lambda `buildRenderData(mask, vertices, attributes, indices, segments)`; the mask is
given as the sequence of its tiles in iteration order. -/
def buildRenderData (extent : Int) (mask : List CanonicalTileID) (out : RenderData) : RenderData :=
  mask.foldl (buildTile extent) out

/-- The four vectors as `RenderRasterLayer::update` passes them: empty. -/
def RenderData.empty : RenderData :=
  { vertices := [], attributes := [], indices := [], segments := [] }

/-- A segment is well formed over the index vector `indices`: it holds a positive multiple
of four vertices, at most 65535, six indexes for every four vertices, and each index of its
range is less than its number of vertices. -/
def SegmentOK (indices : List Nat) (s : SegmentBase) : Prop :=
  0 < s.vertexLength ∧ s.vertexLength ≤ 65535 ∧ 4 ∣ s.vertexLength ∧
  2 * s.indexLength = 3 * s.vertexLength ∧
  ∀ p, p < s.indexLength → ∃ x, indices[s.indexOffset + p]? = some x ∧ x < s.vertexLength

/-- The segments are well formed and lie one after the other: the first starts at vertex
`vo` and index `io`, each next one where the one before ends, and the last one ends at
vertex `vEnd` and index `iEnd`. -/
def SegmentsCover (indices : List Nat) : Nat → Nat → List SegmentBase → Nat → Nat → Prop
  | vo, io, [], vEnd, iEnd => vo = vEnd ∧ io = iEnd
  | vo, io, s :: rest, vEnd, iEnd =>
    s.vertexOffset = vo ∧ s.indexOffset = io ∧ SegmentOK indices s ∧
    SegmentsCover indices (vo + s.vertexLength) (io + s.indexLength) rest vEnd iEnd

/-- A builder with nothing staged, no open drawable and no completed drawable, as a
builder is after construction. -/
def DrawableBuilder.emptyBuilder (name : String) : DrawableBuilder :=
  { name := name
    drawableName := ""
    impl := { vertices := [], indexes := [], colors := [], currentColor := ⟨⟨0⟩, ⟨0⟩, ⟨0⟩, ⟨0⟩⟩ }
    colorMode := ColorMode.Other 0
    drawPriority := 0
    depthType := DepthMaskType.ReadOnly
    shader := none
    matrix := ⟨[]⟩
    vertexAttributes := ⟨[]⟩
    tweakers := []
    currentDrawable := none
    drawables := [] }

/-- Modelled from the spec: the members `createDrawable` and `init` of the backend builder,
defined outside the sources at hand.  `createDrawable` makes a drawable of the given name;
`init` hands the staged geometry over to the drawable ("the raw geometry vectors inside a
builder are owned by the builder until moved out via flush"), which leaves the vectors of
the builder empty. -/
def movingBackend : Backend where
  createDrawable name :=
    { name := name
      id := SimpleIdentity.ident 1
      drawPriority := 0
      depthType := DepthMaskType.ReadOnly
      shader := none
      matrix := ⟨[]⟩
      vertexAttributes := ⟨[]⟩
      tweakers := [] }
  init b := { b with impl := { b.impl with vertices := [], indexes := [], colors := [] } }

/-! # Properties -/

/-! ## `VertexAttribute` -/

namespace VertexAttribute

theorem resizeItems_grow (items : List ElementType) (i : Nat) :
    (if items.length < i + 1 then resizeItems items (max items.length (i + 1)) else items)
      = items ++ List.replicate (i + 1 - items.length) default := by
  unfold resizeItems
  split
  · rename_i h
    have h1 : max items.length (i + 1) = i + 1 := by omega
    have h2 : ¬ (i + 1 ≤ items.length) := by omega
    simp [h1, h2]
  · rename_i h
    have : i + 1 - items.length = 0 := by omega
    simp [this]

theorem set_items (X : VertexAttribute) (i : Nat) (v : ElementType) :
    (X.set i v).items = (X.items ++ List.replicate (i + 1 - X.items.length) default).set i v := by
  rw [← resizeItems_grow]
  unfold set setDirty isDirty
  by_cases h : X.items.length < i + 1 <;> simp only [h, if_true, if_false] <;>
    (repeat' split) <;> rfl

theorem setErased_items (X : VertexAttribute) (i : Nat) (v : ElementType) :
    (X.setErased i v).items
      = (X.items ++ List.replicate (i + 1 - X.items.length) default).set i v := by
  rw [← resizeItems_grow]
  unfold setErased setDirty
  by_cases h : X.items.length < i + 1 <;> simp [h]

theorem isPointUpdate_of_items (X Y : VertexAttribute) (i : Nat) (v : ElementType)
    (h : Y.items = (X.items ++ List.replicate (i + 1 - X.items.length) default).set i v) :
    IsPointUpdate X i v Y := by
  unfold IsPointUpdate get getCount
  rw [h]
  refine ⟨?_, ?_, ?_, ?_⟩
  · simp [List.getElem?_set]
    omega
  · simp
    omega
  · intro j hj hji
    rw [List.getElem?_set_ne (Ne.symm hji), List.getElem?_append_left hj]
  · intro j hj hji
    rw [List.getElem?_set_ne (by omega), List.getElem?_append_right hj]
    rw [List.getElem?_replicate]
    have : j - X.items.length < i + 1 - X.items.length := by omega
    simp [this]
    rfl

/-- C1: when the element stored at `i < getCount()` holds the alternative of `v` and compares
equal to `v` (the C++ `==`, under which a NaN float equals nothing), `set<T>(i, v)` leaves
`isDirty()` as it was, and the element at `i` is `v` afterwards. -/
theorem set_equal_value_keeps_dirty (X : VertexAttribute) (i : Nat) (e v : ElementType)
    (hi : i < X.getCount) (he : X.get i = some e)
    (hT : e.holdsAlternativeOf v = true) (hv : e.valueEq v = true) :
    (X.set i v).isDirty = X.isDirty ∧ (X.set i v).get i = some v := by
  refine ⟨?_, (isPointUpdate_of_items X _ i v (set_items X i v)).1⟩
  have hlt : ¬ (X.items.length < i + 1) := by
    unfold getCount at hi
    omega
  have hget : X.items.getD i default = e := by
    unfold get at he
    simp [List.getD, he]
  unfold set
  simp only [hlt, if_false, hget, hT, if_true, ElementType.valueNe, hv]
  cases hd : X.isDirty <;> simp [hd, isDirty] <;> simpa [isDirty] using hd

theorem set_equal_value_keeps_dirty_witness :
    (set ⟨0, 2, 8, false, ⟨0⟩, [ElementType.int2 1 2, ElementType.int2 3 4], [1, 2]⟩ 1
        (ElementType.int2 3 4)).isDirty
      = isDirty ⟨0, 2, 8, false, ⟨0⟩, [ElementType.int2 1 2, ElementType.int2 3 4], [1, 2]⟩ ∧
    (set ⟨0, 2, 8, false, ⟨0⟩, [ElementType.int2 1 2, ElementType.int2 3 4], [1, 2]⟩ 1
        (ElementType.int2 3 4)).get 1 = some (ElementType.int2 3 4) :=
  set_equal_value_keeps_dirty
    ⟨0, 2, 8, false, ⟨0⟩, [ElementType.int2 1 2, ElementType.int2 3 4], [1, 2]⟩ 1
    (ElementType.int2 3 4) (ElementType.int2 3 4) (by decide) (by decide) (by decide) (by decide)

/-- C2: for `i >= getCount()`, after `set(i, v)`, typed or type-erased, the count is `i + 1`
and `isDirty()` is true. -/
theorem set_beyond_count_grows_and_dirties (X : VertexAttribute) (i : Nat) (v : ElementType)
    (hi : X.getCount ≤ i) :
    ((X.set i v).getCount = i + 1 ∧ (X.set i v).isDirty = true) ∧
    ((X.setErased i v).getCount = i + 1 ∧ (X.setErased i v).isDirty = true) := by
  unfold getCount at hi
  have hlt : X.items.length < i + 1 := by omega
  refine ⟨⟨?_, ?_⟩, ?_, ?_⟩
  · unfold getCount
    rw [set_items]
    simp
    omega
  · unfold set
    simp [hlt, isDirty, setDirty]
  · unfold getCount
    rw [setErased_items]
    simp
    omega
  · simp [setErased, isDirty, setDirty]

theorem set_beyond_count_grows_and_dirties_witness :
    ((((construct 0 ⟨0⟩ 2 1 2).set 3 (ElementType.int2 5 6)).getCount = 3 + 1 ∧
      ((construct 0 ⟨0⟩ 2 1 2).set 3 (ElementType.int2 5 6)).isDirty = true) ∧
     (((construct 0 ⟨0⟩ 2 1 2).setErased 3 (ElementType.int2 5 6)).getCount = 3 + 1 ∧
      ((construct 0 ⟨0⟩ 2 1 2).setErased 3 (ElementType.int2 5 6)).isDirty = true)) :=
  set_beyond_count_grows_and_dirties (construct 0 ⟨0⟩ 2 1 2) 3 (ElementType.int2 5 6) (by decide)

/-- C3: after `clear()` the count is 0; the attribute is dirty if it was not empty, and its
dirtiness is unchanged if it was empty. -/
theorem clear_count_and_dirty (X : VertexAttribute) :
    X.clear.getCount = 0 ∧
    (X.getCount ≠ 0 → X.clear.isDirty = true) ∧
    (X.getCount = 0 → X.clear.isDirty = X.isDirty) := by
  unfold clear getCount isDirty setDirty
  cases h : X.items <;> simp

theorem clear_count_and_dirty_witness :
    (clear ⟨0, 1, 4, false, ⟨0⟩, [ElementType.int1 7], []⟩).isDirty = true ∧
    (clear ⟨0, 1, 4, false, ⟨0⟩, [], []⟩).isDirty = false :=
  ⟨(clear_count_and_dirty ⟨0, 1, 4, false, ⟨0⟩, [ElementType.int1 7], []⟩).2.1 (by decide),
   (clear_count_and_dirty ⟨0, 1, 4, false, ⟨0⟩, [], []⟩).2.2 (by decide)⟩

/-- C4: `set(i, v)`, in both overloads, is a point update with growth: afterwards
`get(i) == v`, the count is `max (old count) (i + 1)`, every element at `j != i` below the
old count is unchanged, and every element from the old count up to `i` (exclusive) is the
`std::int32_t` zero. -/
theorem set_isPointUpdate (X : VertexAttribute) (i : Nat) (v : ElementType) :
    IsPointUpdate X i v (X.set i v) ∧ IsPointUpdate X i v (X.setErased i v) :=
  ⟨isPointUpdate_of_items X _ i v (set_items X i v),
   isPointUpdate_of_items X _ i v (setErased_items X i v)⟩

end VertexAttribute

/-! ## `VertexAttributeArray` -/

namespace AttributeMap

theorem find_eq_none_iff (m : AttributeMap) (name : String) :
    m.find name = none ↔ name ∉ m.map Prod.fst := by
  unfold find
  simp [List.find?_eq_none]
  constructor
  · intro h x hx
    exact h name x hx rfl
  · intro h a b hab heq
    exact h b (heq ▸ hab)

theorem assign_of_absent (m : AttributeMap) (name : String) (v : Option VertexAttribute)
    (h : name ∉ m.map Prod.fst) : m.assign name v = m := by
  unfold assign
  induction m with
  | nil => rfl
  | cons kv t ih =>
    simp only [List.map_cons, List.mem_cons, not_or] at h
    have hne : (kv.1 == name) = false := by
      simp
      exact fun e => h.1 e.symm
    simp only [List.map_cons, hne]
    rw [ih h.2]
    simp

theorem assign_insert_of_absent (m : AttributeMap) (name : String) (v : Option VertexAttribute)
    (h : name ∉ m.map Prod.fst) : (m ++ [(name, none)]).assign name v = m ++ [(name, v)] := by
  have := assign_of_absent m name v h
  unfold assign at this ⊢
  rw [List.map_append, this]
  simp

theorem find_append_of_absent (m : AttributeMap) (name : String) (v : Option VertexAttribute)
    (h : name ∉ m.map Prod.fst) : find (m ++ [(name, v)]) name = some (name, v) := by
  have hn := (find_eq_none_iff m name).2 h
  unfold find at hn ⊢
  rw [List.find?_append, hn]
  simp

end AttributeMap

namespace VertexAttributeArray

theorem contains_eq_false_iff (A : VertexAttributeArray) (n : String) :
    A.contains n = false ↔ n ∉ A.attrs.map Prod.fst := by
  unfold contains
  rw [← AttributeMap.find_eq_none_iff]
  cases A.attrs.find n <;> simp

theorem addPtr_of_absent (A : VertexAttributeArray) (n : String) (attr : Option VertexAttribute)
    (h : A.contains n = false) :
    A.addPtr n attr = ({ attrs := A.attrs ++ [(n, attr)] }, attr) := by
  have hn := (contains_eq_false_iff A n).1 h
  have hf := (AttributeMap.find_eq_none_iff A.attrs n).2 hn
  unfold addPtr AttributeMap.insert
  simp only [hf, if_true]
  rw [AttributeMap.assign_insert_of_absent _ _ _ hn]

theorem addPtr_of_present (A : VertexAttributeArray) (n : String) (attr : Option VertexAttribute)
    (h : A.contains n = true) : A.addPtr n attr = (A, nullref) := by
  unfold contains at h
  unfold addPtr AttributeMap.insert
  cases hf : A.attrs.find n with
  | none => simp [hf] at h
  | some kv => simp

theorem contains_after_addPtr (A : VertexAttributeArray) (n : String)
    (attr : Option VertexAttribute) : (A.addPtr n attr).1.contains n = true := by
  cases h : A.contains n with
  | true => rw [addPtr_of_present A n attr h]; exact h
  | false =>
    rw [addPtr_of_absent A n attr h]
    unfold contains
    simp only
    rw [AttributeMap.find_append_of_absent _ _ _ ((contains_eq_false_iff A n).1 h)]
    rfl

/-- The protected `add` keeps the names unique. -/
theorem addPtr_uniqueNames (A : VertexAttributeArray) (n : String) (attr : Option VertexAttribute)
    (hu : A.UniqueNames) : (A.addPtr n attr).1.UniqueNames := by
  cases h : A.contains n with
  | true => rw [addPtr_of_present A n attr h]; exact hu
  | false =>
    rw [addPtr_of_absent A n attr h]
    unfold UniqueNames at hu ⊢
    have hn := (contains_eq_false_iff A n).1 h
    simp only [List.map_append, List.map_cons, List.map_nil]
    rw [List.nodup_append]
    refine ⟨hu, List.nodup_singleton _, ?_⟩
    intro x hx hx2
    simp at hx2
    exact hn (hx2 ▸ hx)

/-- C5: `add(n, ...)` inserts and returns a non-null attribute exactly when `n` was absent;
when `n` is present, and so on a second `add` of the same name, it returns the null
reference. -/
theorem add_inserts_iff_absent (A : VertexAttributeArray) (n : String) (index : Int)
    (dataType : AttributeDataType) (size : Int) (count : Nat) :
    (((A.add n index dataType size count).2).isSome = true ↔ A.contains n = false) ∧
    ((A.add n index dataType size count).1.size = A.size + 1 ↔ A.contains n = false) ∧
    (A.contains n = false →
      (A.add n index dataType size count).2 = some (create index dataType size count) ∧
      (A.add n index dataType size count).1.get n = some (create index dataType size count)) ∧
    (A.contains n = true → (A.add n index dataType size count).2 = nullref) ∧
    (∀ (index2 : Int) (dataType2 : AttributeDataType) (size2 : Int) (count2 : Nat),
      ((A.add n index dataType size count).1.add n index2 dataType2 size2 count2).2 = nullref) := by
  unfold add
  refine ⟨?_, ?_, ?_, ?_, ?_⟩
  · cases h : A.contains n with
    | true => rw [addPtr_of_present A n _ h]; simp [nullref]
    | false => rw [addPtr_of_absent A n _ h]; simp
  · cases h : A.contains n with
    | true => rw [addPtr_of_present A n _ h]; simp
    | false => rw [addPtr_of_absent A n _ h]; simp [VertexAttributeArray.size]
  · intro h
    rw [addPtr_of_absent A n _ h]
    refine ⟨rfl, ?_⟩
    unfold get
    simp only
    rw [AttributeMap.find_append_of_absent _ _ _ ((contains_eq_false_iff A n).1 h)]
  · intro h
    rw [addPtr_of_present A n _ h]
  · intro index2 dataType2 size2 count2
    rw [addPtr_of_present _ n _ (contains_after_addPtr A n _)]

theorem add_inserts_iff_absent_witness :
    (add ⟨[]⟩ "a_pos" (-1) ⟨255⟩ 1 1).2 = some (create (-1) ⟨255⟩ 1 1) ∧
    (add (add ⟨[]⟩ "a_pos" (-1) ⟨255⟩ 1 1).1 "a_pos" 0 ⟨9⟩ 2 4).2 = nullref :=
  ⟨((add_inserts_iff_absent ⟨[]⟩ "a_pos" (-1) ⟨255⟩ 1 1).2.2.1 (by decide)).1,
   (add_inserts_iff_absent (add ⟨[]⟩ "a_pos" (-1) ⟨255⟩ 1 1).1 "a_pos" 0 ⟨9⟩ 2 4).2.2.2.1
     (by decide)⟩

/-- C6: an `add` under a name the array already holds leaves the array as it was, whatever
the index, data type, size and count (and, for the protected overload, whatever the
attribute offered); so the size, the attribute under that name and every other entry are
unchanged. -/
theorem add_rejected_leaves_array (A : VertexAttributeArray) (n : String)
    (h : A.contains n = true) (index : Int) (dataType : AttributeDataType) (size : Int)
    (count : Nat) (attr : Option VertexAttribute) :
    (A.add n index dataType size count).1 = A ∧
    (A.addPtr n attr).1 = A ∧
    (A.add n index dataType size count).1.size = A.size ∧
    ∀ m, (A.add n index dataType size count).1.get m = A.get m := by
  have h1 : (A.add n index dataType size count).1 = A := by
    unfold add
    rw [addPtr_of_present A n _ h]
  refine ⟨h1, ?_, ?_, ?_⟩
  · rw [addPtr_of_present A n _ h]
  · rw [h1]
  · intro m
    rw [h1]

theorem add_rejected_leaves_array_witness :
    (add ⟨[("a_pos", some ⟨3, 2, 8, false, ⟨9⟩, [ElementType.int2 1 2], [1]⟩)]⟩
        "a_pos" (-1) ⟨255⟩ 1 5).1
      = ⟨[("a_pos", some ⟨3, 2, 8, false, ⟨9⟩, [ElementType.int2 1 2], [1]⟩)]⟩ :=
  (add_rejected_leaves_array
    ⟨[("a_pos", some ⟨3, 2, 8, false, ⟨9⟩, [ElementType.int2 1 2], [1]⟩)]⟩ "a_pos"
    (by decide) (-1) ⟨255⟩ 1 5 none).1

/-- C7: `isDirty()` of an array is true exactly when some attribute it contains is dirty;
it is false for the empty array. -/
theorem isDirty_iff_some_attribute_dirty (A : VertexAttributeArray) :
    (A.isDirty = true ↔
      ∃ name attr, (name, some attr) ∈ A.attrs ∧ attr.isDirty = true) ∧
    isDirty ⟨[]⟩ = false := by
  refine ⟨?_, rfl⟩
  unfold isDirty
  rw [List.any_eq_true]
  constructor
  · rintro ⟨⟨name, p⟩, hmem, hd⟩
    cases p with
    | none => simp at hd
    | some attr => exact ⟨name, attr, hmem, hd⟩
  · rintro ⟨name, attr, hmem, hd⟩
    exact ⟨(name, some attr), hmem, hd⟩

end VertexAttributeArray

namespace VertexAttributeArray

theorem resolve_filter_of_absent (o : VertexAttributeArray) (n : String) (l : AttributeMap)
    (h : n ∉ l.map Prod.fst) :
    (resolve ⟨l⟩ o).filter (fun c => c.1 == n) = [] := by
  unfold resolve
  simp only
  induction l with
  | nil => rfl
  | cons kv t ih =>
    simp only [List.map_cons, List.mem_cons, not_or] at h
    obtain ⟨name, p⟩ := kv
    have hne : (name == n) = false := by
      simp
      exact fun e => h.1 e.symm
    cases p with
    | none => simpa [List.filterMap_cons] using ih h.2
    | some a =>
      simp only [List.filterMap_cons, List.filter_cons, hne]
      simpa using ih h.2

theorem resolve_filter_of_mem (o : VertexAttributeArray) (n : String) (a : VertexAttribute)
    (l : AttributeMap) (hu : (l.map Prod.fst).Nodup) (hm : (n, some a) ∈ l) :
    (resolve ⟨l⟩ o).filter (fun c => c.1 == n) = [(n, a, o.get n)] := by
  induction l with
  | nil => simp at hm
  | cons kv t ih =>
    simp only [List.map_cons, List.nodup_cons] at hu
    rcases List.mem_cons.1 hm with heq | hmem
    · subst heq
      have ht := resolve_filter_of_absent o n t hu.1
      unfold resolve at ht ⊢
      simp only at ht ⊢
      simp only [List.filterMap_cons, List.filter_cons, beq_self_eq_true, if_true]
      rw [ht]
    · have hkv : kv.1 ≠ n := by
        intro e
        apply hu.1
        rw [e]
        exact List.mem_map.2 ⟨(n, some a), hmem, rfl⟩
      have ht := ih hu.2 hmem
      unfold resolve at ht ⊢
      simp only at ht ⊢
      obtain ⟨name, p⟩ := kv
      have hne : (name == n) = false := by simpa using hkv
      cases p with
      | none => simpa [List.filterMap_cons] using ht
      | some a2 =>
        simp only [List.filterMap_cons, List.filter_cons, hne]
        simpa using ht

theorem resolve_mem (d o : VertexAttributeArray) (c : DelegateCall) (hc : c ∈ d.resolve o) :
    (c.1, some c.2.1) ∈ d.attrs ∧ c.2.2 = o.get c.1 := by
  unfold resolve at hc
  rw [List.mem_filterMap] at hc
  obtain ⟨⟨name, p⟩, hmem, hp⟩ := hc
  cases p with
  | none => simp at hp
  | some a =>
    simp only [Option.some.injEq] at hp
    subst hp
    exact ⟨hmem, rfl⟩

theorem find_of_mem_unique (l : AttributeMap) (n : String) (p : Option VertexAttribute)
    (hu : (l.map Prod.fst).Nodup) (hm : (n, p) ∈ l) : AttributeMap.find l n = some (n, p) := by
  unfold AttributeMap.find
  induction l with
  | nil => simp at hm
  | cons kv t ih =>
    simp only [List.map_cons, List.nodup_cons] at hu
    rcases List.mem_cons.1 hm with heq | hmem
    · subst heq
      simp
    · have hkv : (kv.1 == n) = false := by
        simp
        intro e
        apply hu.1
        rw [e]
        exact List.mem_map.2 ⟨(n, p), hmem, rfl⟩
      rw [List.find?_cons, hkv]
      exact ih hu.2 hmem

theorem get_of_mem_unique (A : VertexAttributeArray) (n : String) (p : Option VertexAttribute)
    (hu : A.UniqueNames) (hm : (n, p) ∈ A.attrs) : A.get n = p := by
  unfold get
  rw [find_of_mem_unique A.attrs n p hu hm]

theorem mem_of_contains (A : VertexAttributeArray) (n : String) (h : A.contains n = true) :
    ∃ p, (n, p) ∈ A.attrs := by
  unfold contains AttributeMap.find at h
  cases hf : List.find? (fun kv => kv.1 == n) A.attrs with
  | none => simp [hf] at h
  | some kv =>
    have hmem := List.mem_of_find?_eq_some hf
    have hkey := List.find?_some hf
    simp only [beq_iff_eq] at hkey
    exact ⟨kv.2, by rw [← hkey]; exact hmem⟩

/-- C8: `defaults.resolve(overrides, delegate)` invokes the delegate exactly once for each
name under which `defaults` holds an attribute, with that attribute and with the override:
the attribute that `overrides` holds under the same name when it holds one, and the null
reference when the name is absent from `overrides`.  When no entry of `defaults` is a null
pointer this is one invocation for every name present in `defaults`.  Every invocation is
for an attribute of `defaults`, so a name present only in `overrides` is never passed. -/
theorem resolve_invokes_once_per_default (defaults overrides : VertexAttributeArray)
    (hu : defaults.UniqueNames) :
    (∀ n a, (n, some a) ∈ defaults.attrs →
      (defaults.resolve overrides).filter (fun c => c.1 == n) = [(n, a, overrides.get n)]) ∧
    (overrides.UniqueNames → ∀ n a o, (n, some a) ∈ defaults.attrs →
      (n, some o) ∈ overrides.attrs →
      (defaults.resolve overrides).filter (fun c => c.1 == n) = [(n, a, some o)]) ∧
    (∀ n a, (n, some a) ∈ defaults.attrs → overrides.contains n = false →
      (defaults.resolve overrides).filter (fun c => c.1 == n) = [(n, a, none)]) ∧
    ((∀ kv ∈ defaults.attrs, kv.2 ≠ none) → ∀ n, defaults.contains n = true →
      ∃ a, (n, some a) ∈ defaults.attrs ∧
        (defaults.resolve overrides).filter (fun c => c.1 == n) = [(n, a, overrides.get n)]) ∧
    (∀ c ∈ defaults.resolve overrides,
      (c.1, some c.2.1) ∈ defaults.attrs ∧ c.2.2 = overrides.get c.1) ∧
    (∀ n, overrides.contains n = false → overrides.get n = nullref) ∧
    (∀ n, defaults.contains n = false → ∀ c ∈ defaults.resolve overrides, c.1 ≠ n) := by
  have hnull : ∀ n, overrides.contains n = false → overrides.get n = nullref := by
    intro n hn
    unfold contains at hn
    unfold get
    cases hf : overrides.attrs.find n with
    | none => rfl
    | some kv => simp [hf] at hn
  refine ⟨?_, ?_, ?_, ?_, ?_, hnull, ?_⟩
  · intro n a hm
    exact resolve_filter_of_mem overrides n a defaults.attrs hu hm
  · intro ho n a o hm hom
    rw [resolve_filter_of_mem overrides n a defaults.attrs hu hm,
      get_of_mem_unique overrides n (some o) ho hom]
  · intro n a hm hn
    rw [resolve_filter_of_mem overrides n a defaults.attrs hu hm, hnull n hn]
    rfl
  · intro hnn n hn
    obtain ⟨p, hp⟩ := mem_of_contains defaults n hn
    cases p with
    | none => exact absurd rfl (hnn (n, none) hp)
    | some a => exact ⟨a, hp, resolve_filter_of_mem overrides n a defaults.attrs hu hp⟩
  · intro c hc
    exact resolve_mem defaults overrides c hc
  · intro n hn c hc hcn
    have hmem := (resolve_mem defaults overrides c hc).1
    apply (contains_eq_false_iff defaults n).1 hn
    rw [← hcn]
    exact List.mem_map.2 ⟨_, hmem, rfl⟩

theorem resolve_invokes_once_per_default_witness :
    (resolve
        ⟨[("a_pos", some (create 0 ⟨9⟩ 2 1)), ("a_texture_pos", some (create 1 ⟨9⟩ 2 1))]⟩
        ⟨[("a_extra", some (create 5 ⟨9⟩ 1 3)), ("a_pos", some (create (-1) ⟨9⟩ 2 4))]⟩)
      = [("a_pos", create 0 ⟨9⟩ 2 1, some (create (-1) ⟨9⟩ 2 4)),
         ("a_texture_pos", create 1 ⟨9⟩ 2 1, none)] ∧
    (resolve
        ⟨[("a_pos", some (create 0 ⟨9⟩ 2 1)), ("a_texture_pos", some (create 1 ⟨9⟩ 2 1))]⟩
        ⟨[("a_extra", some (create 5 ⟨9⟩ 1 3)), ("a_pos", some (create (-1) ⟨9⟩ 2 4))]⟩).filter
        (fun c => c.1 == "a_pos")
      = [("a_pos", create 0 ⟨9⟩ 2 1, some (create (-1) ⟨9⟩ 2 4))] ∧
    (resolve
        ⟨[("a_pos", some (create 0 ⟨9⟩ 2 1)), ("a_texture_pos", some (create 1 ⟨9⟩ 2 1))]⟩
        ⟨[("a_extra", some (create 5 ⟨9⟩ 1 3)), ("a_pos", some (create (-1) ⟨9⟩ 2 4))]⟩).filter
        (fun c => c.1 == "a_texture_pos")
      = [("a_texture_pos", create 1 ⟨9⟩ 2 1, none)] :=
  ⟨by decide,
   (resolve_invokes_once_per_default
      ⟨[("a_pos", some (create 0 ⟨9⟩ 2 1)), ("a_texture_pos", some (create 1 ⟨9⟩ 2 1))]⟩
      ⟨[("a_extra", some (create 5 ⟨9⟩ 1 3)), ("a_pos", some (create (-1) ⟨9⟩ 2 4))]⟩
      (by decide)).2.1 (by decide) "a_pos" (create 0 ⟨9⟩ 2 1) (create (-1) ⟨9⟩ 2 4)
      (by decide) (by decide),
   (resolve_invokes_once_per_default
      ⟨[("a_pos", some (create 0 ⟨9⟩ 2 1)), ("a_texture_pos", some (create 1 ⟨9⟩ 2 1))]⟩
      ⟨[("a_extra", some (create 5 ⟨9⟩ 1 3)), ("a_pos", some (create (-1) ⟨9⟩ 2 4))]⟩
      (by decide)).2.2.1 "a_texture_pos" (create 1 ⟨9⟩ 2 1) (by decide) (by decide)⟩

end VertexAttributeArray

/-! ## `DrawableBuilder` -/

theorem toUInt16_add (n k : Nat) (h : n + k < 65536) : toUInt16 ((n : Int) + (k : Int)) = n + k := by
  unfold toUInt16
  omega

theorem toUInt16_sub (n k : Nat) (hk : k ≤ n) (h : n < 65536) :
    toUInt16 ((n : Int) - (k : Int)) = n - k := by
  unfold toUInt16
  omega

namespace DrawableBuilder

/-- C9: on `n` vertices with `n + 3 <= 65536`, `addTriangle` appends its three vertices in
order and the one index triple `(n, n+1, n+2)`; on `n >= 2` vertices with `n + 1 <= 65536`,
`appendTriangle` appends its vertex and the one index triple `(n-2, n-1, n)`; and
`addTriangle(0,0,1,0,0,1)` then `appendTriangle(1,1)` on an empty builder gives 4 vertices
and the indices `0,1,2, 1,2,3`. -/
theorem addTriangle_appendTriangle_geometry (b : DrawableBuilder) (x0 y0 x1 y1 x2 y2 : Int) :
    (b.impl.vertices.length + 3 ≤ 65536 →
      (b.addTriangle x0 y0 x1 y1 x2 y2).impl.vertices
        = b.impl.vertices ++ [(x0, y0), (x1, y1), (x2, y2)] ∧
      (b.addTriangle x0 y0 x1 y1 x2 y2).impl.indexes
        = b.impl.indexes ++ [b.impl.vertices.length, b.impl.vertices.length + 1,
            b.impl.vertices.length + 2]) ∧
    (2 ≤ b.impl.vertices.length → b.impl.vertices.length + 1 ≤ 65536 →
      (b.appendTriangle x0 y0).impl.vertices = b.impl.vertices ++ [(x0, y0)] ∧
      (b.appendTriangle x0 y0).impl.indexes
        = b.impl.indexes ++ [b.impl.vertices.length - 2, b.impl.vertices.length - 1,
            b.impl.vertices.length]) ∧
    (b.impl.vertices = [] → b.impl.indexes = [] →
      ((b.addTriangle 0 0 1 0 0 1).appendTriangle 1 1).impl.vertices
        = [(0, 0), (1, 0), (0, 1), (1, 1)] ∧
      ((b.addTriangle 0 0 1 0 0 1).appendTriangle 1 1).impl.indexes = [0, 1, 2, 1, 2, 3]) := by
  refine ⟨?_, ?_, ?_⟩
  · intro h
    have hn : b.impl.vertices.length % 65536 = b.impl.vertices.length := Nat.mod_eq_of_lt (by omega)
    have e0 := toUInt16_add b.impl.vertices.length 0 (by omega)
    have e1 := toUInt16_add b.impl.vertices.length 1 (by omega)
    have e2 := toUInt16_add b.impl.vertices.length 2 (by omega)
    simp only [Nat.cast_zero, add_zero, Nat.cast_one, Nat.cast_ofNat] at e0 e1 e2
    refine ⟨by simp [addTriangle], ?_⟩
    simp only [addTriangle, hn, e0, e1, e2]
  · intro h2 h
    have hn : b.impl.vertices.length % 65536 = b.impl.vertices.length := Nat.mod_eq_of_lt (by omega)
    have e0 := toUInt16_sub b.impl.vertices.length 0 (by omega) (by omega)
    have e1 := toUInt16_sub b.impl.vertices.length 1 (by omega) (by omega)
    have e2 := toUInt16_sub b.impl.vertices.length 2 (by omega) (by omega)
    simp only [Nat.cast_zero, sub_zero, Nat.cast_one, Nat.cast_ofNat, Nat.sub_zero] at e0 e1 e2
    refine ⟨by simp [appendTriangle], ?_⟩
    simp only [appendTriangle, hn, e0, e1, e2]
  · intro hv hi
    simp [addTriangle, appendTriangle, hv, hi, toUInt16]

theorem addTriangle_appendTriangle_geometry_witness :
    (((emptyBuilder "quad").addTriangle 0 0 1 0 0 1).appendTriangle 1 1).impl.vertices
      = [(0, 0), (1, 0), (0, 1), (1, 1)] ∧
    (((emptyBuilder "quad").addTriangle 0 0 1 0 0 1).appendTriangle 1 1).impl.indexes
      = [0, 1, 2, 1, 2, 3] ∧
    (((emptyBuilder "quad").addTriangle 0 0 1 0 0 1).appendTriangle 1 1).impl.indexes
      = ((emptyBuilder "quad").addTriangle 0 0 1 0 0 1).impl.indexes ++ [3 - 2, 3 - 1, 3] :=
  ⟨((addTriangle_appendTriangle_geometry (emptyBuilder "quad") 0 0 0 0 0 0).2.2 rfl rfl).1,
   ((addTriangle_appendTriangle_geometry (emptyBuilder "quad") 0 0 0 0 0 0).2.2 rfl rfl).2,
   ((addTriangle_appendTriangle_geometry ((emptyBuilder "quad").addTriangle 0 0 1 0 0 1)
      1 1 0 0 0 0).2.1 (by decide) (by decide)).2⟩

/-- C10 fails as stated: on a builder that staged no vertex but holds an open drawable
(obtained here from an empty builder by `getCurrentDrawable(true)`), `flush()` adds that
drawable to the completed sequence. -/
theorem flush_without_vertices_adds_open_drawable :
    (getCurrentDrawable movingBackend (emptyBuilder "b") true).1.impl.vertices = [] ∧
    (flush movingBackend (getCurrentDrawable movingBackend (emptyBuilder "b") true).1).drawables.length
      = (getCurrentDrawable movingBackend (emptyBuilder "b") true).1.drawables.length + 1 := by
  decide

/-- C10, amended: a `flush()` on a builder with no staged vertex creates no drawable; it
moves the open drawable, if there is one, to the completed sequence and otherwise leaves the
builder as it was.  After every `flush()` no drawable is open, so a second `flush()` in a
row changes nothing when the first one left no vertex staged. -/
theorem flush_without_vertices (be : Backend) (b : DrawableBuilder) :
    (b.impl.vertices = [] →
      (flush be b).drawables = b.drawables ++ b.currentDrawable.toList) ∧
    (b.impl.vertices = [] → b.currentDrawable = none → flush be b = b) ∧
    (flush be b).currentDrawable = none ∧
    ((flush be b).impl.vertices = [] → flush be (flush be b) = flush be b) := by
  have h1 : ∀ c : DrawableBuilder, c.impl.vertices = [] → c.currentDrawable = none →
      flush be c = c := by
    intro c hv hc
    simp [flush, hv, hc]
  have h2 : ∀ c : DrawableBuilder, (flush be c).currentDrawable = none := by
    intro c
    unfold flush
    simp only
    split <;> simp_all
  refine ⟨?_, h1 b, h2 b, fun hv => h1 _ hv (h2 b)⟩
  intro hv
  unfold flush
  simp only [hv, List.isEmpty_nil, Bool.not_true, Bool.false_eq_true, if_false]
  cases b.currentDrawable <;> simp

theorem flush_without_vertices_witness :
    flush movingBackend (flush movingBackend ((emptyBuilder "b").addTriangle 0 0 1 0 0 1))
      = flush movingBackend ((emptyBuilder "b").addTriangle 0 0 1 0 0 1) ∧
    flush movingBackend (emptyBuilder "b") = emptyBuilder "b" :=
  ⟨(flush_without_vertices movingBackend ((emptyBuilder "b").addTriangle 0 0 1 0 0 1)).2.2.2
     (by decide),
   (flush_without_vertices movingBackend (emptyBuilder "b")).2.1 rfl rfl⟩

end DrawableBuilder

/-! ## `VertexAttribute`: the raw byte cache and change detection -/

namespace VertexAttribute

theorem set_dirty_rawData (X : VertexAttribute) (i : Nat) (v : ElementType) :
    ((X.set i v).isDirty = X.isDirty ∧ (X.set i v).rawData = X.rawData) ∨
    ((X.set i v).isDirty = true ∧ (X.set i v).rawData = []) := by
  unfold set setDirty isDirty
  by_cases h : X.items.length < i + 1
  · right
    simp [h]
  · simp only [h, if_false]
    cases hd : X.dirty
    · simp only [Bool.not_false, if_true]
      split
      · split
        · right; exact ⟨rfl, rfl⟩
        · left; exact ⟨hd, rfl⟩
      · right; exact ⟨rfl, rfl⟩
    · left
      simp [hd]

theorem clear_dirty_rawData (X : VertexAttribute) :
    (X.clear.isDirty = X.isDirty ∧ X.clear.rawData = X.rawData) ∨
    (X.clear.isDirty = true ∧ X.clear.rawData = []) := by
  unfold clear setDirty isDirty
  cases h : X.items <;> simp

/-- C16: the predicate "dirty implies an empty raw byte cache" holds of a constructed
attribute and is kept by `set<T>`, the type-erased `set`, `clear`, `reserve`, `setIndex` and
`setDirty`; and a call that turns a clean attribute dirty, as every call of the type-erased
`set` and of `setDirty`, leaves the raw byte cache empty. -/
theorem rawDataInvariant_kept (X : VertexAttribute) (i : Nat) (v : ElementType) (n : Nat)
    (k : Int) :
    (∀ index dataType size count stride,
      (construct index dataType size count stride).RawDataInvariant) ∧
    (X.RawDataInvariant →
      (X.set i v).RawDataInvariant ∧ (X.setErased i v).RawDataInvariant ∧
      X.clear.RawDataInvariant ∧ (X.reserve n).RawDataInvariant ∧
      (X.setIndex k).RawDataInvariant ∧ X.setDirty.RawDataInvariant) ∧
    (X.isDirty = false →
      ((X.set i v).isDirty = true → (X.set i v).rawData = []) ∧
      (X.clear.isDirty = true → X.clear.rawData = [])) ∧
    ((X.setErased i v).isDirty = true ∧ (X.setErased i v).rawData = []) ∧
    (X.setDirty.isDirty = true ∧ X.setDirty.rawData = []) := by
  refine ⟨?_, ?_, ?_, ?_, ?_⟩
  · intro index dataType size count stride _
    rfl
  · intro hX
    refine ⟨?_, ?_, ?_, ?_, ?_, ?_⟩
    · intro hd
      rcases set_dirty_rawData X i v with ⟨h1, h2⟩ | ⟨_, h2⟩
      · rw [h2]; exact hX (h1 ▸ hd)
      · exact h2
    · intro _
      simp [setErased, setDirty]
    · intro hd
      rcases clear_dirty_rawData X with ⟨h1, h2⟩ | ⟨_, h2⟩
      · rw [h2]; exact hX (h1 ▸ hd)
      · exact h2
    · exact hX
    · exact hX
    · intro _
      rfl
  · intro hc
    refine ⟨?_, ?_⟩
    · intro hd
      rcases set_dirty_rawData X i v with ⟨h1, _⟩ | ⟨_, h2⟩
      · rw [h1, hc] at hd; exact absurd hd (by decide)
      · exact h2
    · intro hd
      rcases clear_dirty_rawData X with ⟨h1, _⟩ | ⟨_, h2⟩
      · rw [h1, hc] at hd; exact absurd hd (by decide)
      · exact h2
  · simp [setErased, setDirty, isDirty]
  · exact ⟨rfl, rfl⟩

theorem rawDataInvariant_kept_witness :
    (set ⟨0, 2, 8, false, ⟨0⟩, [ElementType.int2 1 2], [1, 2, 3, 4]⟩ 0
        (ElementType.int2 1 3)).RawDataInvariant ∧
    (clear ⟨0, 2, 8, false, ⟨0⟩, [ElementType.int2 1 2], [1, 2, 3, 4]⟩).rawData = [] :=
  ⟨((rawDataInvariant_kept ⟨0, 2, 8, false, ⟨0⟩, [ElementType.int2 1 2], [1, 2, 3, 4]⟩ 0
      (ElementType.int2 1 3) 0 0).2.1 (by decide)).1,
   ((rawDataInvariant_kept ⟨0, 2, 8, false, ⟨0⟩, [ElementType.int2 1 2], [1, 2, 3, 4]⟩ 0
      (ElementType.int2 1 3) 0 0).2.2.1 (by decide)).2 (by decide)⟩

/-- C17: on a clean attribute and at `i < getCount()`, `set<T>(i, v)` marks the attribute
dirty when the element stored at `i` holds another alternative than `T`, or holds `T` with a
value that differs from `v` (the C++ `!=`). -/
theorem set_changed_value_marks_dirty (X : VertexAttribute) (i : Nat) (e v : ElementType)
    (hc : X.isDirty = false) (hi : i < X.getCount) (he : X.get i = some e)
    (hne : e.holdsAlternativeOf v = false ∨
      (e.holdsAlternativeOf v = true ∧ e.valueNe v = true)) :
    (X.set i v).isDirty = true := by
  have hlt : ¬ (X.items.length < i + 1) := by
    unfold getCount at hi
    omega
  have hget : X.items.getD i default = e := by
    unfold get at he
    simp [List.getD, he]
  unfold set
  simp only [hlt, if_false, hget, hc, Bool.not_false, if_true]
  rcases hne with h | ⟨h1, h2⟩
  · simp [h, isDirty, setDirty]
  · simp [h1, h2, isDirty, setDirty]

theorem set_changed_value_marks_dirty_witness :
    (set ⟨0, 2, 8, false, ⟨0⟩, [ElementType.int2 1 2, ElementType.int2 3 4], [1]⟩ 1
        (ElementType.int2 3 5)).isDirty = true ∧
    (set ⟨0, 2, 8, false, ⟨0⟩, [ElementType.int2 1 2, ElementType.int2 3 4], [1]⟩ 1
        (ElementType.float2 ⟨0⟩ ⟨0⟩)).isDirty = true :=
  ⟨set_changed_value_marks_dirty
      ⟨0, 2, 8, false, ⟨0⟩, [ElementType.int2 1 2, ElementType.int2 3 4], [1]⟩ 1
      (ElementType.int2 3 4) (ElementType.int2 3 5) (by decide) (by decide) (by decide)
      (Or.inr ⟨by decide, by decide⟩),
   set_changed_value_marks_dirty
      ⟨0, 2, 8, false, ⟨0⟩, [ElementType.int2 1 2, ElementType.int2 3 4], [1]⟩ 1
      (ElementType.int2 3 4) (ElementType.float2 ⟨0⟩ ⟨0⟩) (by decide) (by decide) (by decide)
      (Or.inl (by decide))⟩

end VertexAttribute

/-! ## `DrawableGL` -/

theorem cleanAll_isDirty (A : VertexAttributeArray) : A.cleanAll.isDirty = false := by
  unfold VertexAttributeArray.cleanAll VertexAttributeArray.isDirty
  rw [List.any_eq_false]
  intro kv hkv
  rw [List.mem_map] at hkv
  obtain ⟨⟨name, p⟩, _, rfl⟩ := hkv
  cases p <;> simp [VertexAttribute.isDirty]

namespace DrawableGL

theorem uploadSegment_foldl (indexBuffer : IndexBuffer) (segs : List DrawSegmentGL) :
    ∀ (c : Context) (bs : AttributeBindingArray) (acc : List DrawSegmentGL),
      (segs.foldl (uploadSegment indexBuffer) (c, bs, acc)).1.events
          = c.events ++ (List.range' c.nextVertexArray segs.length).map GLEvent.createVertexArray ∧
      (segs.foldl (uploadSegment indexBuffer) (c, bs, acc)).2.2.length
          = acc.length + segs.length ∧
      ((∀ s ∈ acc, s.getVertexArray.isValid = true) →
        ∀ s ∈ (segs.foldl (uploadSegment indexBuffer) (c, bs, acc)).2.2,
          s.getVertexArray.isValid = true) := by
  induction segs with
  | nil =>
    intro c bs acc
    simp
  | cons seg rest ih =>
    intro c bs acc
    rw [List.foldl_cons]
    obtain ⟨h1, h2, h3⟩ := ih (uploadSegment indexBuffer (c, bs, acc) seg).1
      (uploadSegment indexBuffer (c, bs, acc) seg).2.1
      (uploadSegment indexBuffer (c, bs, acc) seg).2.2
    refine ⟨?_, ?_, ?_⟩
    · rw [h1]
      simp [uploadSegment, Context.createVertexArray, List.range'_succ]
    · rw [h2]
      simp [uploadSegment]
      omega
    · intro hacc
      apply h3
      intro s hs
      simp only [uploadSegment, List.mem_append, List.mem_singleton] at hs
      rcases hs with hs | hs
      · exact hacc s hs
      · subst hs
        rfl

/-- The test `build` of `upload`, as a proposition. -/
theorem build_eq_true_iff (d : DrawableGL) :
    (d.vertexAttributes.isDirty || d.segments.any fun seg => !seg.getVertexArray.isValid) = true ↔
      (d.vertexAttributes.isDirty = true ∨
        ∃ seg ∈ d.segments, seg.getVertexArray.isValid = false) := by
  simp [List.any_eq_true]

theorem upload_of_clean (up : UploadPass) (ctx : Context) (d : DrawableGL)
    (hd : d.vertexAttributes.isDirty = false)
    (hv : ∀ seg ∈ d.segments, seg.getVertexArray.isValid = true) :
    upload up ctx d = (ctx, d) := by
  have hb : (d.vertexAttributes.isDirty ||
      d.segments.any fun seg => !seg.getVertexArray.isValid) = false := by
    rw [Bool.eq_false_iff, Ne, build_eq_true_iff]
    rintro (h | ⟨seg, hs, h⟩)
    · rw [hd] at h; exact absurd h (by decide)
    · rw [hv seg hs] at h; exact absurd h (by decide)
  unfold upload
  cases d.shader with
  | none => rfl
  | some shader => simp only [hb, Bool.false_eq_true, if_false]

theorem upload_of_build (up : UploadPass) (ctx : Context) (d : DrawableGL) (shader : ShaderProgram)
    (hs : d.shader = some shader)
    (hb : d.vertexAttributes.isDirty = true ∨
      ∃ seg ∈ d.segments, seg.getVertexArray.isValid = false) :
    (upload up ctx d).1.events
      = ctx.events ++
          [GLEvent.createIndexBufferResource (d.indexes.length * 2),
           GLEvent.buildAttributeBindings d.vertexAttributes.getMaxCount] ++
          (List.range' ctx.nextVertexArray d.segments.length).map GLEvent.createVertexArray ∧
    (upload up ctx d).2.segments.length = d.segments.length ∧
    (∀ seg ∈ (upload up ctx d).2.segments, seg.getVertexArray.isValid = true) ∧
    (upload up ctx d).2.shader = d.shader ∧
    (upload up ctx d).2.vertexAttributes
      = (up.buildAttributeBindings d.vertexAttributes.getMaxCount shader.vertexAttributes
          d.vertexAttributes).overrides := by
  have hb2 := (build_eq_true_iff d).2 hb
  unfold upload
  rw [hs]
  simp only [hb2, if_true]
  refine ⟨?_, ?_, ?_, trivial, trivial⟩
  · rw [(uploadSegment_foldl _ d.segments _ _ _).1]
    simp
  · rw [(uploadSegment_foldl _ d.segments _ _ _).2.1]
    simp
  · exact (uploadSegment_foldl _ d.segments _ _ _).2.2 (by simp)

/-- C11: `upload()` of a drawable with a shader performs the rebuild (the index buffer
resource is created, the attribute bindings are built, and one vertex array is created per
segment, each segment getting a valid one) exactly when the attribute array is dirty or a
segment lacks a valid vertex array; on a clean drawable whose segments all have a valid one
it makes no call and returns the drawable, buffers and segment layouts included, as it was. -/
theorem upload_rebuilds_iff_needed (up : UploadPass) (ctx : Context) (d : DrawableGL)
    (shader : ShaderProgram) (hs : d.shader = some shader) :
    ((d.vertexAttributes.isDirty = true ∨
        ∃ seg ∈ d.segments, seg.getVertexArray.isValid = false) →
      (upload up ctx d).1.events
        = ctx.events ++
            [GLEvent.createIndexBufferResource (d.indexes.length * 2),
             GLEvent.buildAttributeBindings d.vertexAttributes.getMaxCount] ++
            (List.range' ctx.nextVertexArray d.segments.length).map GLEvent.createVertexArray ∧
      (upload up ctx d).2.segments.length = d.segments.length ∧
      ∀ seg ∈ (upload up ctx d).2.segments, seg.getVertexArray.isValid = true) ∧
    (d.vertexAttributes.isDirty = false →
      (∀ seg ∈ d.segments, seg.getVertexArray.isValid = true) →
      upload up ctx d = (ctx, d)) := by
  refine ⟨fun hb => ?_, fun hd hv => upload_of_clean up ctx d hd hv⟩
  obtain ⟨h1, h2, h3, _, _⟩ := upload_of_build up ctx d shader hs hb
  exact ⟨h1, h2, h3⟩

theorem cleanResolved_isDirty_false (overrides defaults : VertexAttributeArray)
    (h : ∀ n a, (n, some a) ∈ overrides.attrs → a.isDirty = true →
      (defaults.get n).isSome = true) :
    (overrides.cleanResolved defaults).isDirty = false := by
  unfold VertexAttributeArray.cleanResolved VertexAttributeArray.isDirty
  rw [List.any_eq_false]
  intro kv hkv
  rw [List.mem_map] at hkv
  obtain ⟨⟨name, p⟩, hmem, rfl⟩ := hkv
  cases p with
  | none =>
    by_cases hd : (defaults.get name).isSome = true
    · simp [hd]
    · simp [hd]
  | some a =>
    by_cases hd : (defaults.get name).isSome = true
    · simp [hd, VertexAttribute.isDirty]
    · have hnd : a.isDirty = false := by
        cases hdirty : a.isDirty
        · rfl
        · exact absurd (h name a hmem hdirty) hd
      simp [hd, hnd]

theorem cleanResolved_isDirty_true (overrides defaults : VertexAttributeArray)
    (h : ∃ n a, (n, some a) ∈ overrides.attrs ∧ a.isDirty = true ∧ defaults.get n = none) :
    (overrides.cleanResolved defaults).isDirty = true := by
  obtain ⟨n, a, hmem, hd, hn⟩ := h
  unfold VertexAttributeArray.cleanResolved VertexAttributeArray.isDirty
  rw [List.any_eq_true]
  refine ⟨(n, some a), ?_, hd⟩
  rw [List.mem_map]
  exact ⟨(n, some a), hmem, by simp [hn]⟩

theorem upload_segments_valid (up : UploadPass) (ctx : Context) (d : DrawableGL)
    (shader : ShaderProgram) (hs : d.shader = some shader) :
    (∀ seg ∈ (upload up ctx d).2.segments, seg.getVertexArray.isValid = true) ∧
    (upload up ctx d).2.shader = some shader := by
  by_cases hb : d.vertexAttributes.isDirty = true ∨
      ∃ seg ∈ d.segments, seg.getVertexArray.isValid = false
  · obtain ⟨_, _, h3, h4, _⟩ := upload_of_build up ctx d shader hs hb
    exact ⟨h3, by rw [h4, hs]⟩
  · have hd : d.vertexAttributes.isDirty = false := by
      cases h : d.vertexAttributes.isDirty
      · rfl
      · exact absurd (Or.inl h) hb
    have hv : ∀ seg ∈ d.segments, seg.getVertexArray.isValid = true := by
      intro seg hseg
      cases h : seg.getVertexArray.isValid
      · exact absurd (Or.inr ⟨seg, hseg, h⟩) hb
      · rfl
    rw [upload_of_clean up ctx d hd hv]
    exact ⟨hv, hs⟩

/-- C13: `upload()` of a drawable with no shader makes no call and leaves the drawable, with
its index buffer, attribute buffer and the vertex array of every segment, as it was,
whatever the dirtiness of its attributes. -/
theorem upload_without_shader (up : UploadPass) (ctx : Context) (d : DrawableGL)
    (hs : d.shader = none) :
    upload up ctx d = (ctx, d) := by
  unfold upload
  rw [hs]

theorem upload_rebuilds_iff_needed_witness :
    (upload clearingUploadPass sampleContext (sampleDrawableGL (some sampleShader))).1.events
        = sampleContext.events ++
            [GLEvent.createIndexBufferResource
               ((sampleDrawableGL (some sampleShader)).indexes.length * 2),
             GLEvent.buildAttributeBindings
               (sampleDrawableGL (some sampleShader)).vertexAttributes.getMaxCount] ++
            (List.range' sampleContext.nextVertexArray
              (sampleDrawableGL (some sampleShader)).segments.length).map
              GLEvent.createVertexArray ∧
    (upload clearingUploadPass sampleContext (sampleDrawableGL (some sampleShader))).1.events
        = [GLEvent.createIndexBufferResource 12, GLEvent.buildAttributeBindings 4,
           GLEvent.createVertexArray 1, GLEvent.createVertexArray 2] :=
  ⟨((upload_rebuilds_iff_needed clearingUploadPass sampleContext
      (sampleDrawableGL (some sampleShader)) sampleShader rfl).1 (Or.inl (by decide))).1,
   by decide⟩

theorem upload_without_shader_witness :
    upload clearingUploadPass sampleContext (sampleDrawableGL none)
      = (sampleContext, sampleDrawableGL none) :=
  upload_without_shader clearingUploadPass sampleContext (sampleDrawableGL none) rfl

theorem drawCalls_append (xs ys : List GLEvent) :
    drawCalls (xs ++ ys) = drawCalls xs ++ drawCalls ys := by
  unfold drawCalls
  rw [List.filterMap_append]

/-- What a step of `draw` other than an indexed draw keeps: the program, the vertex array
bound, and the indexed draw calls made. -/
theorem bindUniformBuffers_keeps (d : DrawableGL) (c : Context) :
    (d.bindUniformBuffers c).program = c.program ∧
    (d.bindUniformBuffers c).bindVertexArray = c.bindVertexArray ∧
    drawCalls (d.bindUniformBuffers c).events = drawCalls c.events := by
  unfold bindUniformBuffers
  cases d.shader with
  | none => exact ⟨rfl, rfl, rfl⟩
  | some shaderGL =>
    simp only
    generalize shaderGL.uniformBlocks = blocks
    induction blocks generalizing c with
    | nil => exact ⟨rfl, rfl, rfl⟩
    | cons block rest ih =>
      rw [List.foldl_cons]
      cases hb : d.getUniformBuffer block with
      | none => simpa [hb] using ih c
      | some buffer =>
        simp only [hb]
        obtain ⟨h1, h2, h3⟩ :=
          ih { c with events := c.events ++ [GLEvent.bindUniformBuffer block buffer] }
        refine ⟨h1, h2, ?_⟩
        rw [h3, drawCalls_append]
        simp [drawCalls, GLEvent.drawCall]

theorem unbindUniformBuffers_keeps (d : DrawableGL) (c : Context) :
    (d.unbindUniformBuffers c).program = c.program ∧
    (d.unbindUniformBuffers c).bindVertexArray = c.bindVertexArray ∧
    drawCalls (d.unbindUniformBuffers c).events = drawCalls c.events := by
  unfold unbindUniformBuffers
  cases d.shader with
  | none => exact ⟨rfl, rfl, rfl⟩
  | some shaderGL =>
    simp only
    generalize shaderGL.uniformBlocks = blocks
    induction blocks generalizing c with
    | nil => exact ⟨rfl, rfl, rfl⟩
    | cons block rest ih =>
      rw [List.foldl_cons]
      obtain ⟨h1, h2, h3⟩ :=
        ih { c with events := c.events ++ [GLEvent.unbindUniformBuffer block] }
      refine ⟨h1, h2, ?_⟩
      rw [h3, drawCalls_append]
      simp [drawCalls, GLEvent.drawCall]

theorem bindTextures_keeps (d : DrawableGL) (c : Context) :
    (d.bindTextures c).program = c.program ∧
    (d.bindTextures c).bindVertexArray = c.bindVertexArray ∧
    drawCalls (d.bindTextures c).events = drawCalls c.events := by
  unfold bindTextures
  generalize d.textures = texs
  generalize (0 : Int) = unit
  induction texs generalizing c unit with
  | nil => exact ⟨rfl, rfl, rfl⟩
  | cons tex rest ih =>
    rw [List.foldl_cons]
    obtain ⟨h1, h2, h3⟩ :=
      ih { c with events := c.events ++ [GLEvent.bindTexture tex.1 tex.2 unit] } (unit + 1)
    refine ⟨h1, h2, ?_⟩
    rw [h3, drawCalls_append]
    simp [drawCalls, GLEvent.drawCall]

theorem unbindTextures_keeps (d : DrawableGL) (c : Context) :
    (d.unbindTextures c).program = c.program ∧
    (d.unbindTextures c).bindVertexArray = c.bindVertexArray ∧
    drawCalls (d.unbindTextures c).events = drawCalls c.events := by
  unfold unbindTextures
  generalize d.textures = texs
  induction texs generalizing c with
  | nil => exact ⟨rfl, rfl, rfl⟩
  | cons tex rest ih =>
    rw [List.foldl_cons]
    obtain ⟨h1, h2, h3⟩ := ih { c with events := c.events ++ [GLEvent.unbindTexture tex.1] }
    refine ⟨h1, h2, ?_⟩
    rw [h3, drawCalls_append]
    simp [drawCalls, GLEvent.drawCall]

theorem drawSegment_foldl (segs : List DrawSegmentGL) (c : Context) :
    (segs.foldl drawSegment c).program = c.program ∧
    drawCalls (segs.foldl drawSegment c).events
      = drawCalls c.events ++
          segs.map fun seg => (seg.getMode, seg.getSegment.indexOffset, seg.getSegment.indexLength) := by
  induction segs generalizing c with
  | nil => simp
  | cons seg rest ih =>
    rw [List.foldl_cons]
    obtain ⟨h1, h2⟩ := ih (drawSegment c seg)
    refine ⟨?_, ?_⟩
    · rw [h1]
      unfold drawSegment Context.draw
      simp only
      split <;> rfl
    · rw [h2]
      unfold drawSegment Context.draw
      simp only
      split <;> simp [drawCalls_append, drawCalls, GLEvent.drawCall]

theorem draw_program_and_drawCalls (d : DrawableGL) (parameters : PaintParameters) (c : Context) :
    (d.draw parameters c).program
      = (match d.shader with
         | some shaderGL => shaderGL.programID
         | none => programDefault) ∧
    drawCalls (d.draw parameters c).events
      = drawCalls c.events ++
          d.segments.map fun seg =>
            (seg.getMode, seg.getSegment.indexOffset, seg.getSegment.indexLength) := by
  unfold draw
  simp only
  refine ⟨?_, ?_⟩
  · rw [(unbindUniformBuffers_keeps d _).1, (unbindTextures_keeps d _).1]
    simp only
    rw [(drawSegment_foldl d.segments _).1, (bindTextures_keeps d _).1,
      (bindUniformBuffers_keeps d _).1]
    simp only [Context.setCullFaceMode, Context.setColorMode, Context.setStencilMode,
      Context.setDepthMode]
    cases d.shader with
    | none => rfl
    | some shaderGL =>
      simp only
      split
      · rfl
      · rename_i h
        simp at h
        exact h.symm
  · rw [(unbindUniformBuffers_keeps d _).2.2, (unbindTextures_keeps d _).2.2]
    simp only
    rw [(drawSegment_foldl d.segments _).2, (bindTextures_keeps d _).2.2,
      (bindUniformBuffers_keeps d _).2.2]
    simp only [Context.setCullFaceMode, Context.setColorMode, Context.setStencilMode,
      Context.setDepthMode]
    cases d.shader with
    | none => rfl
    | some shaderGL =>
      simp only
      split <;> rfl

/-- C14 fails as stated: `draw()` of a drawable with no shader and two segments issues two
indexed draw calls. -/
theorem draw_without_shader_issues_draw_calls :
    (sampleDrawableGL none).shader = none ∧
    drawCalls ((sampleDrawableGL none).draw sampleParameters sampleContext).events
      = [(⟨4⟩, 0, 3), (⟨4⟩, 3, 3)] := by
  decide

/-- C14, amended: `draw()` of a drawable with no shader selects the default program and then
issues one indexed draw call per segment; it issues no indexed draw call exactly when the
drawable holds no segment. -/
theorem draw_without_shader (d : DrawableGL) (parameters : PaintParameters) (c : Context)
    (hs : d.shader = none) :
    (d.draw parameters c).program = programDefault ∧
    (drawCalls (d.draw parameters c).events).length
      = (drawCalls c.events).length + d.segments.length ∧
    (drawCalls (d.draw parameters c).events = drawCalls c.events ↔ d.segments = []) := by
  obtain ⟨h1, h2⟩ := draw_program_and_drawCalls d parameters c
  rw [hs] at h1
  refine ⟨h1, ?_, ?_⟩
  · rw [h2]
    simp
  · rw [h2]
    simp

theorem draw_without_shader_witness :
    ((sampleDrawableGL none).draw sampleParameters sampleContext).program = programDefault ∧
    (drawCalls ((sampleDrawableGL none).draw sampleParameters sampleContext).events).length
      = (drawCalls sampleContext.events).length + (sampleDrawableGL none).segments.length :=
  ⟨(draw_without_shader (sampleDrawableGL none) sampleParameters sampleContext rfl).1,
   (draw_without_shader (sampleDrawableGL none) sampleParameters sampleContext rfl).2.1⟩

/-- C20: `draw()` of a drawable with `k` segments issues exactly `k` indexed draw calls, in
the order of the segments, the call for a segment with the mode, the `indexOffset` and the
`indexLength` of that segment. -/
theorem draw_issues_one_call_per_segment (d : DrawableGL) (parameters : PaintParameters)
    (c : Context) :
    drawCalls (d.draw parameters c).events
      = drawCalls c.events ++
          d.segments.map (fun seg =>
            (seg.getMode, seg.getSegment.indexOffset, seg.getSegment.indexLength)) ∧
    (drawCalls (d.draw parameters c).events).length
      = (drawCalls c.events).length + d.segments.length := by
  have h := (draw_program_and_drawCalls d parameters c).2
  refine ⟨h, ?_⟩
  rw [h]
  simp

end DrawableGL

/-! ## The raster tile geometry -/

theorem buildTile_segments_bound (extent : Int) (out : RenderData) (id : CanonicalTileID)
    (h : ∀ seg ∈ out.segments, seg.vertexLength ≤ 65535) :
    ∀ seg ∈ (buildTile extent out id).segments, seg.vertexLength ≤ 65535 := by
  intro seg hseg
  unfold buildTile at hseg
  simp only at hseg
  cases hl : out.segments.getLast? with
  | none =>
    simp only [hl, List.mem_append, List.mem_singleton] at hseg
    rcases hseg with hseg | hseg
    · exact h seg hseg
    · subst hseg
      simp [SegmentBase.mk2]
  | some back =>
    simp only [hl] at hseg
    by_cases hb : back.vertexLength + 4 > 65535
    · simp only [hb, if_true, List.mem_append, List.mem_singleton] at hseg
      rcases hseg with hseg | hseg
      · exact h seg hseg
      · subst hseg
        simp [SegmentBase.mk2]
    · simp only [hb, if_false, List.mem_append, List.mem_singleton] at hseg
      rcases hseg with hseg | hseg
      · exact h seg (List.mem_of_mem_dropLast hseg)
      · subst hseg
        simp only
        omega

theorem buildRenderData_segments_bound (extent : Int) (mask : List CanonicalTileID) :
    ∀ out : RenderData, (∀ seg ∈ out.segments, seg.vertexLength ≤ 65535) →
      ∀ seg ∈ (buildRenderData extent mask out).segments, seg.vertexLength ≤ 65535 := by
  unfold buildRenderData
  induction mask with
  | nil => intro out h; simpa using h
  | cons id rest ih =>
    intro out h
    rw [List.foldl_cons]
    exact ih _ (buildTile_segments_bound extent out id h)

/-- C15: from empty output vectors, and for every tile mask, every segment that
`buildRenderData` produces has `vertexLength <= 65535`, also after each tile of the mask (the
vectors after a number of tiles are those of the mask cut there); and a tile that would take
the last segment above 65535 vertices starts a new segment, which gets the four vertices. -/
theorem buildRenderData_vertexLength_le (extent : Int) (mask : List CanonicalTileID) :
    (∀ seg ∈ (buildRenderData extent mask RenderData.empty).segments, seg.vertexLength ≤ 65535) ∧
    (∀ k, ∀ seg ∈ (buildRenderData extent (mask.take k) RenderData.empty).segments,
      seg.vertexLength ≤ 65535) ∧
    (∀ k, buildRenderData extent mask RenderData.empty
      = buildRenderData extent (mask.drop k) (buildRenderData extent (mask.take k) RenderData.empty)) ∧
    (∀ (out : RenderData) (id : CanonicalTileID) (back : SegmentBase),
      out.segments.getLast? = some back → back.vertexLength + 4 > 65535 →
      (buildTile extent out id).segments
        = out.segments ++
            [{ vertexOffset := out.vertices.length, indexOffset := out.indices.length,
               vertexLength := 4, indexLength := 6, sortKey := ⟨0⟩ }]) := by
  refine ⟨?_, ?_, ?_, ?_⟩
  · exact buildRenderData_segments_bound extent mask RenderData.empty (by simp [RenderData.empty])
  · intro k
    exact buildRenderData_segments_bound extent _ RenderData.empty (by simp [RenderData.empty])
  · intro k
    unfold buildRenderData
    rw [← List.foldl_append, List.take_append_drop]
  · intro out id back hl hb
    unfold buildTile
    simp [hl, hb, SegmentBase.mk2]

theorem buildRenderData_vertexLength_le_witness :
    (buildTile 8192 ⟨[], [], [], [⟨0, 0, 65532, 98298, ⟨0⟩⟩]⟩ ⟨0, 0, 0⟩).segments
      = [⟨0, 0, 65532, 98298, ⟨0⟩⟩] ++
          [{ vertexOffset := 0, indexOffset := 0, vertexLength := 4, indexLength := 6,
             sortKey := ⟨0⟩ }] :=
  (buildRenderData_vertexLength_le 8192 []).2.2.2
    ⟨[], [], [], [⟨0, 0, 65532, 98298, ⟨0⟩⟩]⟩ ⟨0, 0, 0⟩ ⟨0, 0, 65532, 98298, ⟨0⟩⟩ rfl (by decide)

/-! ## `DrawableBuilder`: per-vertex colors and `flush` -/

namespace DrawableBuilder

theorem call_perVertex {calls : List GeometryCall} (b : DrawableBuilder) (c : GeometryCall)
    (hm : b.colorMode = ColorMode.PerVertex) :
    (b.call c).colorMode = ColorMode.PerVertex ∧
    (b.call c).impl.vertices ++
        (coloredVertices (b.call c).impl.currentColor calls).map Prod.fst
      = b.impl.vertices ++ (coloredVertices b.impl.currentColor (c :: calls)).map Prod.fst ∧
    (b.call c).impl.colors ++
        (coloredVertices (b.call c).impl.currentColor calls).map Prod.snd
      = b.impl.colors ++ (coloredVertices b.impl.currentColor (c :: calls)).map Prod.snd := by
  cases c <;>
    simp [call, setColor, addTriangle, appendTriangle, addQuad, hm, coloredVertices,
      GeometryCall.addedVertices, List.replicate]

theorem callAll_perVertex (calls : List GeometryCall) :
    ∀ b : DrawableBuilder, b.colorMode = ColorMode.PerVertex →
      (b.callAll calls).impl.vertices
        = b.impl.vertices ++ (coloredVertices b.impl.currentColor calls).map Prod.fst ∧
      (b.callAll calls).impl.colors
        = b.impl.colors ++ (coloredVertices b.impl.currentColor calls).map Prod.snd := by
  induction calls with
  | nil =>
    intro b _
    simp [callAll, coloredVertices]
  | cons c rest ih =>
    intro b hm
    obtain ⟨h1, h2, h3⟩ := @call_perVertex rest b c hm
    obtain ⟨i1, i2⟩ := ih (b.call c) h1
    unfold callAll at i1 i2 ⊢
    rw [List.foldl_cons, i1, i2]
    exact ⟨h2, h3⟩

/-- C18: from a builder with no vertex and no color staged and in the color mode
`PerVertex`, after any sequence of `setColor`, `addTriangle`, `appendTriangle` and `addQuad`
calls the color list has one entry for each vertex, in order, which is the color that was
current when the vertex was added; in another color mode the three geometry calls leave the
color list as it was. -/
theorem perVertex_colors_follow_vertices (b : DrawableBuilder) (calls : List GeometryCall) :
    (b.colorMode = ColorMode.PerVertex → b.impl.vertices = [] → b.impl.colors = [] →
      (b.callAll calls).impl.vertices = (coloredVertices b.getColor calls).map Prod.fst ∧
      (b.callAll calls).impl.colors = (coloredVertices b.getColor calls).map Prod.snd ∧
      (b.callAll calls).impl.colors.length = (b.callAll calls).impl.vertices.length) ∧
    (b.colorMode ≠ ColorMode.PerVertex →
      ∀ x0 y0 x1 y1 x2 y2 : Int,
        (b.addTriangle x0 y0 x1 y1 x2 y2).impl.colors = b.impl.colors ∧
        (b.appendTriangle x0 y0).impl.colors = b.impl.colors ∧
        (b.addQuad x0 y0 x1 y1).impl.colors = b.impl.colors) := by
  refine ⟨?_, ?_⟩
  · intro hm hv hc
    obtain ⟨h1, h2⟩ := callAll_perVertex calls b hm
    rw [hv] at h1
    rw [hc] at h2
    simp only [List.nil_append] at h1 h2
    refine ⟨h1, h2, ?_⟩
    rw [h1, h2]
    simp
  · intro hm x0 y0 x1 y1 x2 y2
    simp [addTriangle, appendTriangle, addQuad, hm]

theorem perVertex_colors_follow_vertices_witness :
    (callAll { emptyBuilder "b" with colorMode := ColorMode.PerVertex }
        [GeometryCall.addTriangle 0 0 1 0 0 1, GeometryCall.setColor ⟨⟨1⟩, ⟨1⟩, ⟨1⟩, ⟨1⟩⟩,
          GeometryCall.appendTriangle 1 1]).impl.colors
      = (coloredVertices (getColor { emptyBuilder "b" with colorMode := ColorMode.PerVertex })
          [GeometryCall.addTriangle 0 0 1 0 0 1, GeometryCall.setColor ⟨⟨1⟩, ⟨1⟩, ⟨1⟩, ⟨1⟩⟩,
            GeometryCall.appendTriangle 1 1]).map Prod.snd ∧
    (callAll { emptyBuilder "b" with colorMode := ColorMode.PerVertex }
        [GeometryCall.addTriangle 0 0 1 0 0 1, GeometryCall.setColor ⟨⟨1⟩, ⟨1⟩, ⟨1⟩, ⟨1⟩⟩,
          GeometryCall.appendTriangle 1 1]).impl.colors
      = [⟨⟨0⟩, ⟨0⟩, ⟨0⟩, ⟨0⟩⟩, ⟨⟨0⟩, ⟨0⟩, ⟨0⟩, ⟨0⟩⟩, ⟨⟨0⟩, ⟨0⟩, ⟨0⟩, ⟨0⟩⟩, ⟨⟨1⟩, ⟨1⟩, ⟨1⟩, ⟨1⟩⟩] ∧
    ((emptyBuilder "b").addQuad 0 0 1 1).impl.colors = (emptyBuilder "b").impl.colors :=
  ⟨((perVertex_colors_follow_vertices { emptyBuilder "b" with colorMode := ColorMode.PerVertex }
      [GeometryCall.addTriangle 0 0 1 0 0 1, GeometryCall.setColor ⟨⟨1⟩, ⟨1⟩, ⟨1⟩, ⟨1⟩⟩,
        GeometryCall.appendTriangle 1 1]).1 rfl rfl rfl).2.1,
   by decide,
   ((perVertex_colors_follow_vertices (emptyBuilder "b") []).2 (by decide) 0 0 1 1 0 0).2.2⟩

/-- What `flush()` does on a builder that holds a vertex, whatever the backend: the open
drawable (created when there is none) gets the draw priority, depth type, shader, matrix
and vertex attributes of the builder, and its tweakers end with those of the builder; the
builder is handed to `init()` in that state; the drawable that `init()` leaves open, if
any, is added to the completed sequence that `init()` leaves; afterwards no drawable is
open and `getDrawableId()` is the empty identity. -/
theorem flush_with_vertices (be : Backend) (b : DrawableBuilder) (hv : b.impl.vertices ≠ []) :
    ∃ (d : Drawable) (handed : DrawableBuilder),
      handed.currentDrawable = some d ∧ handed.drawables = b.drawables ∧
      d.drawPriority = b.drawPriority ∧ d.depthType = b.depthType ∧ d.shader = b.shader ∧
      d.matrix = b.matrix ∧ d.vertexAttributes = b.getVertexAttributes ∧
      b.tweakers <:+ d.tweakers ∧
      (flush be b).drawables
        = (be.init handed).drawables ++ (be.init handed).currentDrawable.toList ∧
      (flush be b).currentDrawable = none ∧
      (flush be b).getDrawableId = SimpleIdentity.Empty := by
  have he : b.impl.vertices.isEmpty = false := by
    cases hvs : b.impl.vertices with
    | nil => exact absurd hvs hv
    | cons _ _ => rfl
  have hb0 : ∃ d0, (getCurrentDrawable be b true).1.currentDrawable = some d0 ∧
      (getCurrentDrawable be b true).1.drawables = b.drawables ∧
      configure (getCurrentDrawable be b true).1 d0 = configure b d0 := by
    unfold getCurrentDrawable
    cases hcur : b.currentDrawable with
    | none => exact ⟨_, rfl, rfl, rfl⟩
    | some d0 => exact ⟨d0, by simp [hcur], by simp, by simp⟩
  obtain ⟨d0, h1, h2, h3⟩ := hb0
  refine ⟨configure b d0,
    { (getCurrentDrawable be b true).1 with currentDrawable := some (configure b d0) },
    rfl, h2, rfl, rfl, rfl, rfl, rfl, ?_, ?_, ?_, ?_⟩
  · simp [configure, Drawable.addTweakers, Drawable.setVertexAttributes, Drawable.setMatrix,
      Drawable.setShader, Drawable.setDepthType, Drawable.setDrawPriority]
  all_goals
    unfold flush
    simp only [he, Bool.not_false, if_true]
    rw [h1, Option.map_some', h3]
    generalize be.init ({ (getCurrentDrawable be b true).1 with
      currentDrawable := some (configure b d0) } : DrawableBuilder) = X
    cases hX : X.currentDrawable <;> simp [hX, getDrawableId]

end DrawableBuilder

/-! ## `DrawableGL`: the vertex array bound at a draw call -/

namespace DrawableGL

theorem boundAtDraws_append (xs ys : List GLEvent) :
    boundAtDraws (xs ++ ys) = boundAtDraws xs ++ boundAtDraws ys := by
  unfold boundAtDraws
  rw [List.filterMap_append]

theorem bindUniformBuffers_keeps_bound (d : DrawableGL) (c : Context) :
    boundAtDraws (d.bindUniformBuffers c).events = boundAtDraws c.events := by
  unfold bindUniformBuffers
  cases d.shader with
  | none => rfl
  | some shaderGL =>
    simp only
    generalize shaderGL.uniformBlocks = blocks
    induction blocks generalizing c with
    | nil => rfl
    | cons block rest ih =>
      rw [List.foldl_cons]
      cases hb : d.getUniformBuffer block with
      | none => simpa [hb] using ih c
      | some buffer =>
        simp only [hb]
        rw [ih, boundAtDraws_append]
        simp [boundAtDraws, GLEvent.boundAtDraw]

theorem unbindUniformBuffers_keeps_bound (d : DrawableGL) (c : Context) :
    boundAtDraws (d.unbindUniformBuffers c).events = boundAtDraws c.events := by
  unfold unbindUniformBuffers
  cases d.shader with
  | none => rfl
  | some shaderGL =>
    simp only
    generalize shaderGL.uniformBlocks = blocks
    induction blocks generalizing c with
    | nil => rfl
    | cons block rest ih =>
      rw [List.foldl_cons, ih, boundAtDraws_append]
      simp [boundAtDraws, GLEvent.boundAtDraw]

theorem bindTextures_keeps_bound (d : DrawableGL) (c : Context) :
    boundAtDraws (d.bindTextures c).events = boundAtDraws c.events := by
  unfold bindTextures
  generalize d.textures = texs
  generalize (0 : Int) = unit
  induction texs generalizing c unit with
  | nil => rfl
  | cons tex rest ih =>
    rw [List.foldl_cons, ih, boundAtDraws_append]
    simp [boundAtDraws, GLEvent.boundAtDraw]

theorem unbindTextures_keeps_bound (d : DrawableGL) (c : Context) :
    boundAtDraws (d.unbindTextures c).events = boundAtDraws c.events := by
  unfold unbindTextures
  generalize d.textures = texs
  induction texs generalizing c with
  | nil => rfl
  | cons tex rest ih =>
    rw [List.foldl_cons, ih, boundAtDraws_append]
    simp [boundAtDraws, GLEvent.boundAtDraw]

theorem drawSegment_foldl_bound (segs : List DrawSegmentGL) (c : Context) :
    boundAtDraws (segs.foldl drawSegment c).events
      = boundAtDraws c.events ++ carriedBindings c.bindVertexArray segs := by
  induction segs generalizing c with
  | nil => simp [carriedBindings]
  | cons seg rest ih =>
    rw [List.foldl_cons, ih]
    unfold drawSegment Context.draw
    simp only [carriedBindings]
    split <;> simp [boundAtDraws_append, boundAtDraws, GLEvent.boundAtDraw]

theorem draw_boundAtDraws (d : DrawableGL) (parameters : PaintParameters) (c : Context) :
    boundAtDraws (d.draw parameters c).events
      = boundAtDraws c.events ++ carriedBindings c.bindVertexArray d.segments ∧
    (d.draw parameters c).bindVertexArray = c.bindVertexArray := by
  unfold draw
  simp only
  refine ⟨?_, ?_⟩
  · rw [unbindUniformBuffers_keeps_bound, unbindTextures_keeps_bound]
    simp only
    rw [drawSegment_foldl_bound, bindTextures_keeps_bound, bindUniformBuffers_keeps_bound,
      (bindTextures_keeps d _).2.1, (bindUniformBuffers_keeps d _).2.1]
    simp only [Context.setCullFaceMode, Context.setColorMode, Context.setStencilMode,
      Context.setDepthMode]
    cases d.shader with
    | none => rfl
    | some shaderGL =>
      simp only
      split <;> rfl
  · rw [(unbindUniformBuffers_keeps d _).2.1, (unbindTextures_keeps d _).2.1]
    simp only
    rw [(bindTextures_keeps d _).2.1, (bindUniformBuffers_keeps d _).2.1]
    simp only [Context.setCullFaceMode, Context.setColorMode, Context.setStencilMode,
      Context.setDepthMode]
    cases d.shader with
    | none => rfl
    | some shaderGL =>
      simp only
      split <;> rfl

theorem carriedBindings_length (bound : Nat) (segs : List DrawSegmentGL) :
    (carriedBindings bound segs).length = segs.length := by
  induction segs generalizing bound with
  | nil => rfl
  | cons seg rest ih => simp [carriedBindings, ih]

theorem carriedBindings_getElem (segs : List DrawSegmentGL) :
    ∀ (bound j : Nat) (seg : DrawSegmentGL), segs[j]? = some seg →
      (seg.getVertexArray.isValid = true →
        (carriedBindings bound segs)[j]? = some seg.getVertexArray.getID) ∧
      (seg.getVertexArray.isValid = false →
        (carriedBindings bound segs)[j]? = (bound :: carriedBindings bound segs)[j]?) := by
  induction segs with
  | nil =>
    intro bound j seg h
    simp at h
  | cons s rest ih =>
    intro bound j seg h
    cases j with
    | zero =>
      simp only [List.getElem?_cons_zero, Option.some.injEq] at h
      subst h
      refine ⟨fun hv => ?_, fun hv => ?_⟩
      · simp [carriedBindings, hv]
      · simp [carriedBindings, hv]
    | succ j =>
      simp only [List.getElem?_cons_succ] at h
      obtain ⟨h1, h2⟩ :=
        ih (if s.getVertexArray.isValid then s.getVertexArray.getID else bound) j seg h
      refine ⟨fun hv => ?_, fun hv => ?_⟩
      · simpa [carriedBindings] using h1 hv
      · simpa [carriedBindings] using h2 hv

theorem carriedBindings_of_valid (bound : Nat) (segs : List DrawSegmentGL)
    (h : ∀ seg ∈ segs, seg.getVertexArray.isValid = true) :
    carriedBindings bound segs
      = segs.map fun seg =>
          if seg.getVertexArray.isValid then seg.getVertexArray.getID else bound := by
  induction segs generalizing bound with
  | nil => rfl
  | cons seg rest ih =>
    have hseg := h seg (List.mem_cons_self _ _)
    have hrest : ∀ s ∈ rest, s.getVertexArray.isValid = true :=
      fun s hs => h s (List.mem_cons_of_mem _ hs)
    simp only [carriedBindings, hseg, if_true, List.map_cons]
    rw [ih _ hrest]
    congr 1
    apply List.map_congr_left
    intro s hs
    simp [hrest s hs]

theorem carriedBindings_of_invalid (bound : Nat) (segs : List DrawSegmentGL)
    (h : ∀ seg ∈ segs, seg.getVertexArray.isValid = false) :
    carriedBindings bound segs
      = segs.map fun seg =>
          if seg.getVertexArray.isValid then seg.getVertexArray.getID else bound := by
  induction segs generalizing bound with
  | nil => rfl
  | cons seg rest ih =>
    have hseg := h seg (List.mem_cons_self _ _)
    have hrest : ∀ s ∈ rest, s.getVertexArray.isValid = false :=
      fun s hs => h s (List.mem_cons_of_mem _ hs)
    simp only [carriedBindings, hseg, Bool.false_eq_true, if_false, List.map_cons]
    rw [ih _ hrest]

theorem upload_uniformLayouts (up : UploadPass) (ctx : Context) (d : DrawableGL)
    (hu : UniformLayouts d.segments) : UniformLayouts (upload up ctx d).2.segments := by
  cases hs : d.shader with
  | none =>
    have : upload up ctx d = (ctx, d) := by
      unfold upload
      rw [hs]
    rw [this]
    exact hu
  | some shader =>
    by_cases hb : d.vertexAttributes.isDirty = true ∨
        ∃ seg ∈ d.segments, seg.getVertexArray.isValid = false
    · exact Or.inl (upload_of_build up ctx d shader hs hb).2.2.1
    · have hd : d.vertexAttributes.isDirty = false := by
        cases h : d.vertexAttributes.isDirty
        · rfl
        · exact absurd (Or.inl h) hb
      have hv : ∀ seg ∈ d.segments, seg.getVertexArray.isValid = true := by
        intro seg hseg
        cases h : seg.getVertexArray.isValid
        · exact absurd (Or.inr ⟨seg, hseg, h⟩) hb
        · rfl
      rw [upload_of_clean up ctx d hd hv]
      exact hu

end DrawableGL

/-! ## `DrawableBuilder`: validity of the indexes -/

namespace DrawableBuilder

theorem addTriangle_geometry (b : DrawableBuilder) (x0 y0 x1 y1 x2 y2 : Int)
    (h : b.impl.vertices.length + 3 ≤ 65536) :
    (b.addTriangle x0 y0 x1 y1 x2 y2).impl.vertices
      = b.impl.vertices ++ [(x0, y0), (x1, y1), (x2, y2)] ∧
    (b.addTriangle x0 y0 x1 y1 x2 y2).impl.indexes
      = b.impl.indexes ++ [b.impl.vertices.length, b.impl.vertices.length + 1,
          b.impl.vertices.length + 2] := by
  have hn : b.impl.vertices.length % 65536 = b.impl.vertices.length := Nat.mod_eq_of_lt (by omega)
  have e0 := toUInt16_add b.impl.vertices.length 0 (by omega)
  have e1 := toUInt16_add b.impl.vertices.length 1 (by omega)
  have e2 := toUInt16_add b.impl.vertices.length 2 (by omega)
  simp only [Nat.cast_zero, add_zero, Nat.cast_one, Nat.cast_ofNat] at e0 e1 e2
  refine ⟨by simp [addTriangle], ?_⟩
  simp only [addTriangle, hn, e0, e1, e2]

theorem appendTriangle_geometry (b : DrawableBuilder) (x0 y0 : Int)
    (h2 : 2 ≤ b.impl.vertices.length) (h : b.impl.vertices.length + 1 ≤ 65536) :
    (b.appendTriangle x0 y0).impl.vertices = b.impl.vertices ++ [(x0, y0)] ∧
    (b.appendTriangle x0 y0).impl.indexes
      = b.impl.indexes ++ [b.impl.vertices.length - 2, b.impl.vertices.length - 1,
          b.impl.vertices.length] := by
  have hn : b.impl.vertices.length % 65536 = b.impl.vertices.length := Nat.mod_eq_of_lt (by omega)
  have e0 := toUInt16_sub b.impl.vertices.length 0 (by omega) (by omega)
  have e1 := toUInt16_sub b.impl.vertices.length 1 (by omega) (by omega)
  have e2 := toUInt16_sub b.impl.vertices.length 2 (by omega) (by omega)
  simp only [Nat.cast_zero, sub_zero, Nat.cast_one, Nat.cast_ofNat, Nat.sub_zero] at e0 e1 e2
  refine ⟨by simp [appendTriangle], ?_⟩
  simp only [appendTriangle, hn, e0, e1, e2]

theorem addQuad_geometry (b : DrawableBuilder) (x0 y0 x1 y1 : Int)
    (h : b.impl.vertices.length + 4 ≤ 65536) :
    (b.addQuad x0 y0 x1 y1).impl.vertices
      = b.impl.vertices ++ [(x0, y0), (x1, y0), (x0, y1), (x1, y1)] ∧
    (b.addQuad x0 y0 x1 y1).impl.indexes
      = b.impl.indexes ++ [b.impl.vertices.length, b.impl.vertices.length + 1,
          b.impl.vertices.length + 2, b.impl.vertices.length + 1,
          b.impl.vertices.length + 2, b.impl.vertices.length + 3] := by
  obtain ⟨t1, t2⟩ := addTriangle_geometry b x0 y0 x1 y0 x0 y1 (by omega)
  have hl : (b.addTriangle x0 y0 x1 y0 x0 y1).impl.vertices.length
      = b.impl.vertices.length + 3 := by
    rw [t1]; simp
  obtain ⟨a1, a2⟩ := appendTriangle_geometry (b.addTriangle x0 y0 x1 y0 x0 y1) x1 y1
    (by omega) (by omega)
  unfold addQuad
  refine ⟨?_, ?_⟩
  · rw [a1, t1]; simp
  · rw [a2, t2, hl]
    simp

theorem call_geometry (b : DrawableBuilder) (c : GeometryCall)
    (hlen : b.impl.vertices.length + c.addedVertices.length ≤ 65536)
    (hpre : c.allowedAt b.impl.vertices.length = true)
    (hold : ∀ i ∈ b.impl.indexes, i < b.impl.vertices.length) :
    (b.call c).impl.vertices = b.impl.vertices ++ c.addedVertices ∧
    (b.call c).impl.indexes.length = b.impl.indexes.length + 3 * c.triangles ∧
    ∀ i ∈ (b.call c).impl.indexes, i < b.impl.vertices.length + c.addedVertices.length := by
  cases c with
  | setColor value =>
    refine ⟨by simp [call, setColor, GeometryCall.addedVertices], by simp [call, setColor, GeometryCall.triangles], ?_⟩
    intro i hi
    have := hold i (by simpa [call, setColor] using hi)
    omega
  | addTriangle x0 y0 x1 y1 x2 y2 =>
    simp only [GeometryCall.addedVertices, List.length_cons, List.length_nil] at hlen
    obtain ⟨h1, h2⟩ := addTriangle_geometry b x0 y0 x1 y1 x2 y2 (by omega)
    simp only [call, GeometryCall.addedVertices, GeometryCall.triangles]
    refine ⟨h1, by rw [h2]; simp, ?_⟩
    intro i hi
    rw [h2] at hi
    simp only [List.mem_append, List.mem_cons, List.mem_singleton, List.not_mem_nil, or_false] at hi
    rcases hi with hi | hi | hi | hi
    · have := hold i hi
      simp; omega
    all_goals (subst hi; simp)
  | appendTriangle x0 y0 =>
    simp only [GeometryCall.addedVertices, List.length_cons, List.length_nil] at hlen
    have h2le : 2 ≤ b.impl.vertices.length := by simpa [GeometryCall.allowedAt] using hpre
    obtain ⟨h1, h2⟩ := appendTriangle_geometry b x0 y0 h2le (by omega)
    simp only [call, GeometryCall.addedVertices, GeometryCall.triangles]
    refine ⟨h1, by rw [h2]; simp, ?_⟩
    intro i hi
    rw [h2] at hi
    simp only [List.mem_append, List.mem_cons, List.mem_singleton, List.not_mem_nil, or_false] at hi
    rcases hi with hi | hi | hi | hi
    · have := hold i hi
      simp; omega
    all_goals (subst hi; simp; try omega)
  | addQuad x0 y0 x1 y1 =>
    simp only [GeometryCall.addedVertices, List.length_cons, List.length_nil] at hlen
    obtain ⟨h1, h2⟩ := addQuad_geometry b x0 y0 x1 y1 (by omega)
    simp only [call, GeometryCall.addedVertices, GeometryCall.triangles]
    refine ⟨h1, by rw [h2]; simp, ?_⟩
    intro i hi
    rw [h2] at hi
    simp only [List.mem_append, List.mem_cons, List.mem_singleton, List.not_mem_nil, or_false] at hi
    rcases hi with hi | hi | hi | hi | hi | hi | hi
    · have := hold i hi
      simp; omega
    all_goals (subst hi; simp)

theorem call_vertices_length (b : DrawableBuilder) (c : GeometryCall) :
    (b.call c).impl.vertices.length = b.impl.vertices.length + c.addedVertices.length := by
  cases c <;>
    simp [call, setColor, addTriangle, appendTriangle, addQuad, GeometryCall.addedVertices]

theorem callAll_vertices_length_ge (calls : List GeometryCall) :
    ∀ b : DrawableBuilder, b.impl.vertices.length ≤ (b.callAll calls).impl.vertices.length := by
  induction calls with
  | nil => intro b; simp [callAll]
  | cons c rest ih =>
    intro b
    have h1 := ih (b.call c)
    have h2 := call_vertices_length b c
    unfold callAll at h1 ⊢
    rw [List.foldl_cons]
    omega

theorem callAll_indexes (calls : List GeometryCall) :
    ∀ b : DrawableBuilder,
      (∀ i ∈ b.impl.indexes, i < b.impl.vertices.length) →
      callsAllowedAt b.impl.vertices.length calls = true →
      (b.callAll calls).impl.vertices.length ≤ 65536 →
      (∀ i ∈ (b.callAll calls).impl.indexes, i < (b.callAll calls).impl.vertices.length) ∧
      (b.callAll calls).impl.indexes.length
        = b.impl.indexes.length + 3 * (calls.map GeometryCall.triangles).sum := by
  induction calls with
  | nil =>
    intro b hold _ _
    simpa [callAll] using hold
  | cons c rest ih =>
    intro b hold hpre hn
    simp only [callsAllowedAt, Bool.and_eq_true] at hpre
    have hcl := call_vertices_length b c
    have hge := callAll_vertices_length_ge rest (b.call c)
    have hn2 : ((b.call c).callAll rest).impl.vertices.length ≤ 65536 := by
      simpa [callAll] using hn
    obtain ⟨_, c2, c3⟩ := call_geometry b c (by omega) hpre.1 hold
    obtain ⟨i1, i2⟩ := ih (b.call c) (by rw [hcl]; exact c3) (by rw [hcl]; exact hpre.2) hn2
    unfold callAll at i1 i2 ⊢
    rw [List.foldl_cons]
    refine ⟨i1, ?_⟩
    rw [i2, c2]
    simp only [List.map_cons, List.sum_cons]
    omega

/-- C22: from a builder with no vertex and no index staged, after any sequence of
`addTriangle`, `addQuad` and `appendTriangle` calls (and `setColor` calls), each
`appendTriangle` made on at least two vertices, that leaves at most 65536 vertices, every
index stored is less than the number of vertices and the number of indexes is three times
the number of triangles added; and `addQuad(x0,y0,x1,y1)` on `n` vertices, `n + 4 <= 65536`,
adds the vertices `(x0,y0),(x1,y0),(x0,y1),(x1,y1)` and the indexes `n,n+1,n+2, n+1,n+2,n+3`. -/
theorem indexes_below_vertex_count (b : DrawableBuilder) (calls : List GeometryCall)
    (hv : b.impl.vertices = []) (hi : b.impl.indexes = [])
    (hp : callsAllowedAt 0 calls = true)
    (hn : (b.callAll calls).impl.vertices.length ≤ 65536) :
    (∀ i ∈ (b.callAll calls).impl.indexes, i < (b.callAll calls).impl.vertices.length) ∧
    (b.callAll calls).impl.indexes.length = 3 * (calls.map GeometryCall.triangles).sum ∧
    (∀ (q : DrawableBuilder) (x0 y0 x1 y1 : Int), q.impl.vertices.length + 4 ≤ 65536 →
      (q.addQuad x0 y0 x1 y1).impl.vertices
        = q.impl.vertices ++ [(x0, y0), (x1, y0), (x0, y1), (x1, y1)] ∧
      (q.addQuad x0 y0 x1 y1).impl.indexes
        = q.impl.indexes ++ [q.impl.vertices.length, q.impl.vertices.length + 1,
            q.impl.vertices.length + 2, q.impl.vertices.length + 1,
            q.impl.vertices.length + 2, q.impl.vertices.length + 3]) := by
  obtain ⟨h1, h2⟩ := callAll_indexes calls b (by simp [hi]) (by rw [hv]; exact hp) hn
  refine ⟨h1, ?_, fun q x0 y0 x1 y1 h => addQuad_geometry q x0 y0 x1 y1 h⟩
  rw [h2, hi]
  simp

theorem indexes_below_vertex_count_witness :
    (∀ i ∈ ((emptyBuilder "b").callAll
        [GeometryCall.addTriangle 0 0 1 0 0 1, GeometryCall.appendTriangle 1 1,
          GeometryCall.addQuad 2 2 3 3]).impl.indexes,
      i < ((emptyBuilder "b").callAll
        [GeometryCall.addTriangle 0 0 1 0 0 1, GeometryCall.appendTriangle 1 1,
          GeometryCall.addQuad 2 2 3 3]).impl.vertices.length) ∧
    ((emptyBuilder "b").callAll
        [GeometryCall.addTriangle 0 0 1 0 0 1, GeometryCall.appendTriangle 1 1,
          GeometryCall.addQuad 2 2 3 3]).impl.indexes
      = [0, 1, 2, 1, 2, 3, 4, 5, 6, 5, 6, 7] :=
  ⟨(indexes_below_vertex_count (emptyBuilder "b")
      [GeometryCall.addTriangle 0 0 1 0 0 1, GeometryCall.appendTriangle 1 1,
        GeometryCall.addQuad 2 2 3 3] rfl rfl (by decide) (by decide)).1,
   by decide⟩

end DrawableBuilder

/-! ## The raster tile geometry: indices and segments -/

theorem segmentOK_append (indices more : List Nat) (s : SegmentBase) (h : SegmentOK indices s) :
    SegmentOK (indices ++ more) s := by
  obtain ⟨h1, h2, h3, h4, h5⟩ := h
  refine ⟨h1, h2, h3, h4, ?_⟩
  intro p hp
  obtain ⟨x, hx, hlt⟩ := h5 p hp
  refine ⟨x, ?_, hlt⟩
  have hlen : s.indexOffset + p < indices.length := by
    rcases List.getElem?_eq_some.1 hx with ⟨hl, _⟩
    exact hl
  rw [List.getElem?_append_left hlen]
  exact hx

theorem segmentsCover_append (indices more : List Nat) (segs : List SegmentBase) :
    ∀ vo io vEnd iEnd, SegmentsCover indices vo io segs vEnd iEnd →
      SegmentsCover (indices ++ more) vo io segs vEnd iEnd := by
  induction segs with
  | nil => intro vo io vEnd iEnd h; exact h
  | cons s rest ih =>
    intro vo io vEnd iEnd h
    obtain ⟨h1, h2, h3, h4⟩ := h
    exact ⟨h1, h2, segmentOK_append indices more s h3, ih _ _ _ _ h4⟩

theorem segmentsCover_snoc (indices : List Nat) (segs : List SegmentBase) (s : SegmentBase) :
    ∀ vo io vEnd iEnd, SegmentsCover indices vo io (segs ++ [s]) vEnd iEnd ↔
      ∃ vm im, SegmentsCover indices vo io segs vm im ∧ s.vertexOffset = vm ∧
        s.indexOffset = im ∧ SegmentOK indices s ∧
        vm + s.vertexLength = vEnd ∧ im + s.indexLength = iEnd := by
  induction segs with
  | nil =>
    intro vo io vEnd iEnd
    simp only [List.nil_append, SegmentsCover]
    constructor
    · rintro ⟨h1, h2, h3, h4, h5⟩
      exact ⟨vo, io, ⟨rfl, rfl⟩, h1, h2, h3, h4, h5⟩
    · rintro ⟨vm, im, ⟨rfl, rfl⟩, h1, h2, h3, h4, h5⟩
      exact ⟨h1, h2, h3, h4, h5⟩
  | cons t rest ih =>
    intro vo io vEnd iEnd
    simp only [List.cons_append, SegmentsCover]
    constructor
    · rintro ⟨h1, h2, h3, h4⟩
      obtain ⟨vm, im, h5, h6⟩ := (ih _ _ _ _).1 h4
      exact ⟨vm, im, ⟨h1, h2, h3, h5⟩, h6⟩
    · rintro ⟨vm, im, ⟨h1, h2, h3, h4⟩, h5⟩
      exact ⟨h1, h2, h3, (ih _ _ _ _).2 ⟨vm, im, h4, h5⟩⟩

/-- The six indexes of a quad that starts at `o`, appended at the end of the index
vector, are less than `o + 4`. -/
theorem quad_indices_getElem (indices : List Nat) (o j : Nat) (hj : j < 6) :
    ∃ x, (indices ++ [o, o + 1, o + 2, o + 1, o + 2, o + 3])[indices.length + j]? = some x ∧
      x < o + 4 := by
  rw [List.getElem?_append_right (by omega)]
  have : indices.length + j - indices.length = j := by omega
  rw [this]
  interval_cases j <;> simp

/-- The body of the loop when it starts a new segment. -/
theorem buildTile_fresh (extent : Int) (out : RenderData) (id : CanonicalTileID)
    (h : out.segments.getLast? = none ∨
      ∃ back, out.segments.getLast? = some back ∧ back.vertexLength + 4 > 65535) :
    (buildTile extent out id).segments
      = out.segments ++
          [{ vertexOffset := out.vertices.length, indexOffset := out.indices.length,
             vertexLength := 4, indexLength := 6, sortKey := ⟨0⟩ }] ∧
    (buildTile extent out id).indices = out.indices ++ [0, 0 + 1, 0 + 2, 0 + 1, 0 + 2, 0 + 3] := by
  unfold buildTile
  rcases h with h | ⟨back, h, hb⟩
  · simp [h, SegmentBase.mk2]
  · simp [h, hb, SegmentBase.mk2]

/-- The body of the loop when it adds to the last segment. -/
theorem buildTile_extend (extent : Int) (out : RenderData) (id : CanonicalTileID)
    (back : SegmentBase) (h : out.segments.getLast? = some back)
    (hb : back.vertexLength + 4 ≤ 65535) :
    (buildTile extent out id).segments
      = out.segments.dropLast ++
          [{ back with
              vertexLength := back.vertexLength + 4, indexLength := back.indexLength + 6 }] ∧
    (buildTile extent out id).indices
      = out.indices ++
          [back.vertexLength, back.vertexLength + 1, back.vertexLength + 2,
            back.vertexLength + 1, back.vertexLength + 2, back.vertexLength + 3] := by
  have hnb : ¬ (back.vertexLength + 4 > 65535) := by omega
  have e0 : back.vertexLength % 65536 = back.vertexLength := Nat.mod_eq_of_lt (by omega)
  have e1 : (back.vertexLength + 1) % 65536 = back.vertexLength + 1 := Nat.mod_eq_of_lt (by omega)
  have e2 : (back.vertexLength + 2) % 65536 = back.vertexLength + 2 := Nat.mod_eq_of_lt (by omega)
  have e3 : (back.vertexLength + 3) % 65536 = back.vertexLength + 3 := Nat.mod_eq_of_lt (by omega)
  unfold buildTile
  simp only [h, hnb, if_false, e0, e1, e2, e3]
  exact ⟨trivial, trivial⟩

theorem buildTile_vertices (extent : Int) (out : RenderData) (id : CanonicalTileID) :
    ∃ quad : List (Int × Int), quad.length = 4 ∧
      (buildTile extent out id).vertices = out.vertices ++ quad ∧
      (buildTile extent out id).attributes = out.attributes ++ quad := by
  unfold buildTile
  exact ⟨_, by simp, rfl, rfl⟩

theorem buildTile_indices_length (extent : Int) (out : RenderData) (id : CanonicalTileID) :
    (buildTile extent out id).indices.length = out.indices.length + 6 := by
  unfold buildTile
  simp

/-- The loop invariant of `buildRenderData`. -/
theorem buildTile_cover (extent : Int) (out : RenderData) (id : CanonicalTileID)
    (hA : out.attributes = out.vertices)
    (hC : SegmentsCover out.indices 0 0 out.segments out.vertices.length out.indices.length) :
    (buildTile extent out id).attributes = (buildTile extent out id).vertices ∧
    (buildTile extent out id).vertices.length = out.vertices.length + 4 ∧
    SegmentsCover (buildTile extent out id).indices 0 0 (buildTile extent out id).segments
      (buildTile extent out id).vertices.length (buildTile extent out id).indices.length := by
  obtain ⟨quad, hq, hv, ha⟩ := buildTile_vertices extent out id
  have hvl : (buildTile extent out id).vertices.length = out.vertices.length + 4 := by
    rw [hv]; simp [hq]
  have hil := buildTile_indices_length extent out id
  refine ⟨by rw [hv, ha, hA], hvl, ?_⟩
  rw [hvl, hil]
  by_cases hfresh : out.segments.getLast? = none ∨
      ∃ back, out.segments.getLast? = some back ∧ back.vertexLength + 4 > 65535
  · obtain ⟨hs, hi⟩ := buildTile_fresh extent out id hfresh
    rw [hs, hi, segmentsCover_snoc]
    refine ⟨out.vertices.length, out.indices.length, segmentsCover_append _ _ _ _ _ _ _ hC,
      rfl, rfl, ?_, rfl, rfl⟩
    refine ⟨by simp, by simp, by simp, by simp, ?_⟩
    intro p hp
    exact quad_indices_getElem out.indices 0 p hp
  · cases hl : out.segments.getLast? with
    | none => exact absurd (Or.inl hl) hfresh
    | some back =>
      have hb : back.vertexLength + 4 ≤ 65535 := by
        by_contra hcon
        exact hfresh (Or.inr ⟨back, hl, by omega⟩)
      obtain ⟨hs, hi⟩ := buildTile_extend extent out id back hl hb
      have hsplit : out.segments = out.segments.dropLast ++ [back] :=
        (List.dropLast_append_getLast? back hl).symm
      rw [hsplit] at hC
      obtain ⟨vm, im, hfront, hvo, hio, hok, hve, hie⟩ :=
        (segmentsCover_snoc _ _ _ _ _ _ _).1 hC
      rw [hs, hi, segmentsCover_snoc]
      refine ⟨vm, im, segmentsCover_append _ _ _ _ _ _ _ hfront, hvo, hio, ?_, ?_, ?_⟩
      · obtain ⟨k1, k2, k3, k4, k5⟩ := hok
        refine ⟨by simp, by simp; omega, ?_, by simp; omega, ?_⟩
        · simp only
          exact Dvd.dvd.add k3 (dvd_refl 4)
        · intro p hp
          simp only at hp ⊢
          by_cases hpo : p < back.indexLength
          · obtain ⟨x, hx, hlt⟩ := k5 p hpo
            refine ⟨x, ?_, by omega⟩
            have hlen : back.indexOffset + p < out.indices.length := by
              rcases List.getElem?_eq_some.1 hx with ⟨hl2, _⟩
              exact hl2
            rw [List.getElem?_append_left hlen]
            exact hx
          · have hp2 : back.indexOffset + p = out.indices.length + (p - back.indexLength) := by
              omega
            rw [hp2]
            exact quad_indices_getElem out.indices back.vertexLength (p - back.indexLength)
              (by omega)
      · simp only; omega
      · simp only; omega

theorem buildRenderData_cover (extent : Int) (mask : List CanonicalTileID) :
    ∀ out : RenderData, out.attributes = out.vertices →
      SegmentsCover out.indices 0 0 out.segments out.vertices.length out.indices.length →
      (buildRenderData extent mask out).attributes = (buildRenderData extent mask out).vertices ∧
      (buildRenderData extent mask out).vertices.length = out.vertices.length + 4 * mask.length ∧
      (buildRenderData extent mask out).indices.length = out.indices.length + 6 * mask.length ∧
      SegmentsCover (buildRenderData extent mask out).indices 0 0
        (buildRenderData extent mask out).segments
        (buildRenderData extent mask out).vertices.length
        (buildRenderData extent mask out).indices.length := by
  unfold buildRenderData
  induction mask with
  | nil =>
    intro out hA hC
    exact ⟨hA, by simp, by simp, hC⟩
  | cons id rest ih =>
    intro out hA hC
    obtain ⟨s1, s2, s3⟩ := buildTile_cover extent out id hA hC
    have s4 := buildTile_indices_length extent out id
    obtain ⟨r1, r2, r3, r4⟩ := ih (buildTile extent out id) s1 s3
    rw [List.foldl_cons]
    refine ⟨r1, ?_, ?_, r4⟩
    · rw [r2, s2]; simp only [List.length_cons]; omega
    · rw [r3, s4]; simp only [List.length_cons]; omega

theorem buildRenderData_empty_cover (extent : Int) (mask : List CanonicalTileID) :
    (buildRenderData extent mask RenderData.empty).attributes
      = (buildRenderData extent mask RenderData.empty).vertices ∧
    (buildRenderData extent mask RenderData.empty).vertices.length = 4 * mask.length ∧
    (buildRenderData extent mask RenderData.empty).indices.length = 6 * mask.length ∧
    SegmentsCover (buildRenderData extent mask RenderData.empty).indices 0 0
      (buildRenderData extent mask RenderData.empty).segments
      (4 * mask.length) (6 * mask.length) := by
  obtain ⟨r1, r2, r3, r4⟩ := buildRenderData_cover extent mask RenderData.empty rfl ⟨rfl, rfl⟩
  have e1 : RenderData.empty.vertices.length = 0 := rfl
  have e2 : RenderData.empty.indices.length = 0 := rfl
  rw [e1, Nat.zero_add] at r2
  rw [e2, Nat.zero_add] at r3
  rw [r2, r3] at r4
  exact ⟨r1, r2, r3, r4⟩

theorem segmentsCover_mem (indices : List Nat) (segs : List SegmentBase) :
    ∀ vo io vEnd iEnd, SegmentsCover indices vo io segs vEnd iEnd →
      ∀ s ∈ segs, SegmentOK indices s := by
  induction segs with
  | nil => intro vo io vEnd iEnd _ s hs; simp at hs
  | cons t rest ih =>
    intro vo io vEnd iEnd h s hs
    obtain ⟨_, _, h3, h4⟩ := h
    rcases List.mem_cons.1 hs with rfl | hs
    · exact h3
    · exact ih _ _ _ _ h4 s hs

theorem segmentsCover_head (indices : List Nat) (segs : List SegmentBase) (vo io vEnd iEnd : Nat)
    (h : SegmentsCover indices vo io segs vEnd iEnd) (s : SegmentBase)
    (hs : segs.head? = some s) : s.vertexOffset = vo ∧ s.indexOffset = io := by
  cases segs with
  | nil => simp at hs
  | cons t rest =>
    simp only [List.head?_cons, Option.some.injEq] at hs
    subst hs
    exact ⟨h.1, h.2.1⟩

theorem segmentsCover_chain (indices : List Nat) (segs : List SegmentBase) :
    ∀ vo io vEnd iEnd, SegmentsCover indices vo io segs vEnd iEnd →
      List.Chain'
        (fun a b : SegmentBase =>
          b.vertexOffset = a.vertexOffset + a.vertexLength ∧
          b.indexOffset = a.indexOffset + a.indexLength)
        segs := by
  induction segs with
  | nil => intro vo io vEnd iEnd _; exact List.chain'_nil
  | cons t rest ih =>
    intro vo io vEnd iEnd h
    obtain ⟨h1, h2, _, h4⟩ := h
    cases rest with
    | nil => exact List.chain'_singleton t
    | cons u rest2 =>
      rw [List.chain'_cons]
      refine ⟨?_, ih _ _ _ _ h4⟩
      obtain ⟨u1, u2, _, _⟩ := h4
      exact ⟨by rw [u1, h1], by rw [u2, h2]⟩

theorem segmentsCover_sum (indices : List Nat) (segs : List SegmentBase) :
    ∀ vo io vEnd iEnd, SegmentsCover indices vo io segs vEnd iEnd →
      vo + (segs.map SegmentBase.vertexLength).sum = vEnd ∧
      io + (segs.map SegmentBase.indexLength).sum = iEnd := by
  induction segs with
  | nil =>
    intro vo io vEnd iEnd h
    simpa [SegmentsCover] using h
  | cons t rest ih =>
    intro vo io vEnd iEnd h
    obtain ⟨_, _, _, h4⟩ := h
    obtain ⟨i1, i2⟩ := ih _ _ _ _ h4
    simp only [List.map_cons, List.sum_cons]
    omega

/-- C23: the six indexes that `buildRenderData` appends for a tile are
`o, o+1, o+2, o+1, o+2, o+3` where `o` is `vertexLength` of the segment worked on before the
tile is added (0 for a segment just started); they are below 65536, so the `uint16_t` casts
keep their values; and from empty output vectors every index in the index range of a
segment is less than `vertexLength` of that segment. -/
theorem buildRenderData_indices_segment_relative (extent : Int) (mask : List CanonicalTileID) :
    (∀ (out : RenderData) (id : CanonicalTileID) (back : SegmentBase),
      out.segments.getLast? = some back → back.vertexLength + 4 ≤ 65535 →
      (buildTile extent out id).indices
        = out.indices ++
            [back.vertexLength, back.vertexLength + 1, back.vertexLength + 2,
              back.vertexLength + 1, back.vertexLength + 2, back.vertexLength + 3] ∧
      back.vertexLength + 3 < 65536) ∧
    (∀ (out : RenderData) (id : CanonicalTileID),
      (out.segments.getLast? = none ∨
        ∃ back, out.segments.getLast? = some back ∧ back.vertexLength + 4 > 65535) →
      (buildTile extent out id).indices = out.indices ++ [0, 1, 2, 1, 2, 3] ∧
      (buildTile extent out id).segments
        = out.segments ++
            [{ vertexOffset := out.vertices.length, indexOffset := out.indices.length,
               vertexLength := 4, indexLength := 6, sortKey := ⟨0⟩ }]) ∧
    (∀ s ∈ (buildRenderData extent mask RenderData.empty).segments,
      ∀ p, p < s.indexLength →
        ∃ x, (buildRenderData extent mask RenderData.empty).indices[s.indexOffset + p]? = some x ∧
          x < s.vertexLength ∧ x < 65536) := by
  refine ⟨?_, ?_, ?_⟩
  · intro out id back hl hb
    exact ⟨(buildTile_extend extent out id back hl hb).2, by omega⟩
  · intro out id h
    obtain ⟨h1, h2⟩ := buildTile_fresh extent out id h
    exact ⟨h2, h1⟩
  · intro s hs p hp
    obtain ⟨_, _, _, hC⟩ := buildRenderData_empty_cover extent mask
    obtain ⟨_, k2, _, _, k5⟩ := segmentsCover_mem _ _ _ _ _ _ hC s hs
    obtain ⟨x, hx, hlt⟩ := k5 p hp
    exact ⟨x, hx, hlt, by omega⟩

theorem buildRenderData_indices_segment_relative_witness :
    (buildTile 8192 (buildRenderData 8192 [⟨1, 0, 0⟩] RenderData.empty) ⟨1, 1, 0⟩).indices
      = (buildRenderData 8192 [⟨1, 0, 0⟩] RenderData.empty).indices ++
          [(4 : Nat), 4 + 1, 4 + 2, 4 + 1, 4 + 2, 4 + 3] ∧
    (buildRenderData 8192 [⟨1, 0, 0⟩, ⟨1, 1, 0⟩] RenderData.empty).indices
      = [0, 1, 2, 1, 2, 3, 4, 5, 6, 5, 6, 7] :=
  ⟨((buildRenderData_indices_segment_relative 8192 []).1
      (buildRenderData 8192 [⟨1, 0, 0⟩] RenderData.empty) ⟨1, 1, 0⟩ ⟨0, 0, 4, 6, ⟨0⟩⟩ rfl
      (by decide)).1,
   by decide⟩

/-- C24: from empty output vectors and for a mask of `k` tiles, `vertices` and `attributes`
have `4k` entries and are equal, `indices` has `6k` entries, the first segment starts at
vertex 0 and index 0, every later segment starts where the one before ends, every segment
has `indexLength = 6 * vertexLength / 4`, the values of `vertexLength` sum to `4k` (and
those of `indexLength` to `6k`), and no segment is empty; there is a segment when `k > 0`. -/
theorem buildRenderData_partition (extent : Int) (mask : List CanonicalTileID) :
    (buildRenderData extent mask RenderData.empty).vertices.length = 4 * mask.length ∧
    (buildRenderData extent mask RenderData.empty).attributes.length = 4 * mask.length ∧
    (buildRenderData extent mask RenderData.empty).attributes
      = (buildRenderData extent mask RenderData.empty).vertices ∧
    (buildRenderData extent mask RenderData.empty).indices.length = 6 * mask.length ∧
    (∀ s, (buildRenderData extent mask RenderData.empty).segments.head? = some s →
      s.vertexOffset = 0 ∧ s.indexOffset = 0) ∧
    List.Chain'
      (fun a b : SegmentBase =>
        b.vertexOffset = a.vertexOffset + a.vertexLength ∧
        b.indexOffset = a.indexOffset + a.indexLength)
      (buildRenderData extent mask RenderData.empty).segments ∧
    (∀ s ∈ (buildRenderData extent mask RenderData.empty).segments,
      s.indexLength = 6 * s.vertexLength / 4) ∧
    ((buildRenderData extent mask RenderData.empty).segments.map SegmentBase.vertexLength).sum
      = 4 * mask.length ∧
    ((buildRenderData extent mask RenderData.empty).segments.map SegmentBase.indexLength).sum
      = 6 * mask.length ∧
    (∀ s ∈ (buildRenderData extent mask RenderData.empty).segments,
      0 < s.vertexLength ∧ 0 < s.indexLength) ∧
    (0 < mask.length → (buildRenderData extent mask RenderData.empty).segments ≠ []) := by
  obtain ⟨hA, hV, hI, hC⟩ := buildRenderData_empty_cover extent mask
  have hsum := segmentsCover_sum _ _ _ _ _ _ hC
  refine ⟨hV, by rw [hA]; exact hV, hA, hI, ?_, ?_, ?_, ?_, ?_, ?_, ?_⟩
  · intro s hs
    exact segmentsCover_head _ _ _ _ _ _ hC s hs
  · exact segmentsCover_chain _ _ _ _ _ _ hC
  · intro s hs
    obtain ⟨_, _, ⟨m, hm⟩, k4, _⟩ := segmentsCover_mem _ _ _ _ _ _ hC s hs
    omega
  · omega
  · omega
  · intro s hs
    obtain ⟨k1, _, _, k4, _⟩ := segmentsCover_mem _ _ _ _ _ _ hC s hs
    omega
  · intro hk hnil
    rw [hnil] at hsum
    obtain ⟨h1, _⟩ := hsum
    simp only [List.map_nil, List.sum_nil] at h1
    omega

theorem buildRenderData_partition_witness :
    (buildRenderData 8192 [⟨1, 0, 0⟩, ⟨1, 1, 0⟩] RenderData.empty).segments ≠ [] ∧
    (buildRenderData 8192 [⟨1, 0, 0⟩, ⟨1, 1, 0⟩] RenderData.empty).segments
      = [⟨0, 0, 8, 12, ⟨0⟩⟩] :=
  ⟨(buildRenderData_partition 8192 [⟨1, 0, 0⟩, ⟨1, 1, 0⟩]).2.2.2.2.2.2.2.2.2.2 (by decide),
   by decide⟩

end Mbgl
